import Mathlib

/-!
Listener service (shadingfish/SDGom): a shallow embedding.

The Go sources embedded here are

* `listener-service/main.go` (`connect`),
* `listener-service/event/consumer.go` (`Listen`, `handlePayload`, `logEvent`, `Payload`),
* `listener-service/event/event.go` (`declareRandomQueue`).

Calls that leave the process (dialling the broker, sleeping, AMQP requests, HTTP
round trips) are recorded in an explicit trace, and the answers of the outside
world are arguments of the embedded functions.
-/

namespace Listener

/-! ## Go values shared by the embedding -/

/-- A non-nil Go `error` value; the nil error is `none : Option GoError`. -/
structure GoError where
  msg : String
  deriving DecidableEq, Repr

/-- A live `*amqp.Connection`; the nil pointer is `none : Option Connection`. -/
structure Connection where
  id : Nat
  deriving DecidableEq, Repr

/-! ## `connect` (listener-service/main.go) -/

/-- One nanosecond-valued `time.Second`. -/
def second : Nat := 1000000000

/-- The value `time.Duration(math.Pow(float64(counts), 2)) * time.Second`, in nanoseconds.
`counts` never exceeds 6 in `connect`, so the square is exact in `float64` and the
product stays far below `2^63`. -/
def backOff (counts : Nat) : Nat := counts ^ 2 * second

/-- What `connect` does to the outside world, in program order. Lines written to the
console (`fmt.Println`, `log.Println`) are not recorded. -/
inductive ConnectEvent where
  /-- The call `amqp.Dial(...)`, numbered from 0. -/
  | dial (k : Nat)
  /-- The call `time.Sleep(d)`, `d` in nanoseconds. -/
  | sleep (d : Nat)
  deriving DecidableEq, Repr

/-- The pair returned by `connect` together with the trace it left. -/
structure ConnectResult where
  connection : Option Connection
  err : Option GoError
  trace : List ConnectEvent
  deriving DecidableEq, Repr

/-- The `for { ... }` loop of `connect`. `dial k` is the answer of the `k`-th call of
`amqp.Dial`; `counts` is the local failure counter, `dials` the number of calls made
so far and `trace` the events so far. One unit of fuel is one iteration. -/
def connectLoop (dial : Nat → Except GoError Connection) :
    Nat → Nat → Nat → List ConnectEvent → Option ConnectResult
  | 0, _, _, _ => none
  | fuel + 1, counts, dials, trace =>
    match dial dials with
    | .ok c =>
      -- connection = c; break; return connection, nil
      some ⟨some c, none, trace ++ [.dial dials]⟩
    | .error e =>
      let counts := counts + 1
      if counts > 5 then
        some ⟨none, some e, trace ++ [.dial dials]⟩
      else
        connectLoop dial fuel counts (dials + 1)
          (trace ++ [.dial dials, .sleep (backOff counts)])

/-- The function `connect`, run for at most `fuel` loop iterations. -/
def connect (fuel : Nat) (dial : Nat → Except GoError Connection) : Option ConnectResult :=
  connectLoop dial fuel 0 0 []

/-- The dial outcome is a failure. -/
def dialFails (r : Except GoError Connection) : Prop :=
  ∃ e, r = .error e

/-- The error carried by a failed dial outcome, the nil error for a successful one. -/
def dialError : Except GoError Connection → Option GoError
  | .ok _ => none
  | .error e => some e

/-! ## `encoding/json`, as far as `Payload` uses it

`json.Unmarshal` and `json.MarshalIndent` belong to the Go standard library. They are
modelled on text: a Go byte string is the sequence of runes Go itself decodes from it
(an invalid byte being the rune `U+FFFD`), that is a list of `Char`. -/

inductive JSON where
  | null
  | bool (b : Bool)
  | number (lit : List Char)
  | string (s : List Char)
  | array (xs : List JSON)
  | object (members : List (List Char × JSON))

/-- White space between JSON tokens: space, tab, carriage return, line feed. -/
def isSpace (c : Char) : Bool :=
  c = ' ' || c = '\t' || c = '\r' || c = '\n'

/-- The text without its leading white space. -/
def skipSpace : List Char → List Char
  | [] => []
  | c :: cs => if isSpace c then skipSpace cs else c :: cs

/-- The value of a hexadecimal digit, in either letter case. -/
def hexVal (c : Char) : Option Nat :=
  if '0' ≤ c ∧ c ≤ '9' then some (c.toNat - '0'.toNat)
  else if 'a' ≤ c ∧ c ≤ 'f' then some (c.toNat - 'a'.toNat + 10)
  else if 'A' ≤ c ∧ c ≤ 'F' then some (c.toNat - 'A'.toNat + 10)
  else none

/-- The 16-bit value of four hexadecimal digits. -/
def hex4 (a b c d : Char) : Option Nat :=
  match hexVal a, hexVal b, hexVal c, hexVal d with
  | some a, some b, some c, some d => some (((a * 16 + b) * 16 + c) * 16 + d)
  | _, _, _, _ => none

/-- The value of a `\uXXXX` escape at the head of the text, if there is one. -/
def getu4 : List Char → Option Nat
  | b :: u :: h0 :: h1 :: h2 :: h3 :: _ =>
    if b = '\\' ∧ u = 'u' then hex4 h0 h1 h2 h3 else none
  | _ => none

/-- The code unit is a UTF-16 surrogate. -/
def isSurrogate (r : Nat) : Bool := 0xD800 ≤ r && r < 0xE000

/-- The rune `U+FFFD`. -/
def replacementChar : Char := Char.ofNat 0xFFFD

/-- The rune a surrogate pair `r1`, `r2` stands for; `U+FFFD` when it is no valid pair. -/
def decodeRune (r1 : Nat) (r2 : Option Nat) : Char :=
  match r2 with
  | some r2 =>
    if 0xD800 ≤ r1 ∧ r1 < 0xDC00 ∧ 0xDC00 ≤ r2 ∧ r2 < 0xE000 then
      Char.ofNat ((r1 - 0xD800) * 1024 + (r2 - 0xDC00) + 0x10000)
    else replacementChar
  | none => replacementChar

/-- The character a one-letter escape `\e` stands for. -/
def unescape (e : Char) : Option Char :=
  if e = '"' ∨ e = '\\' ∨ e = '/' then some e
  else if e = 'b' then some (Char.ofNat 8)
  else if e = 'f' then some (Char.ofNat 12)
  else if e = 'n' then some '\n'
  else if e = 'r' then some '\r'
  else if e = 't' then some '\t'
  else none

/-- One character of the content of a string literal, `c` followed by `rest`: the
character it stands for and what follows it. `c` is not the closing quote. -/
def unquoteOne (c : Char) (rest : List Char) : Option (Char × List Char) :=
  if c = '\\' then
    match rest with
    | [] => none
    | e :: rest1 =>
      if e = 'u' then
        match rest1 with
        | h0 :: h1 :: h2 :: h3 :: rest2 =>
          match hex4 h0 h1 h2 h3 with
          | none => none
          | some rr =>
            if isSurrogate rr then
              let dec := decodeRune rr (getu4 rest2)
              if dec ≠ replacementChar then some (dec, rest2.drop 6)
              else some (replacementChar, rest2)
            else some (Char.ofNat rr, rest2)
        | _ => none
      else (unescape e).map fun d => (d, rest1)
  else if c.toNat < 0x20 then none
  else some (c, rest)

/-- The content of a string literal up to its closing quote, decoded, and what follows
the quote. One unit of fuel is one decoded character. -/
def unquoteLoop : Nat → List Char → Option (List Char × List Char)
  | 0, _ => none
  | _ + 1, [] => none
  | fuel + 1, c :: rest =>
    if c = '"' then some ([], rest)
    else
      match unquoteOne c rest with
      | none => none
      | some (d, rest1) => (unquoteLoop fuel rest1).map fun (s, r) => (d :: s, r)

/-- The string literal whose opening quote has just been read. Every decoded character
consumes at least one character of `cs`, so `cs.length` is fuel enough. -/
def unquote (cs : List Char) : Option (List Char × List Char) :=
  unquoteLoop cs.length cs

/-- A decimal digit. -/
def isDigit (c : Char) : Bool := '0' ≤ c && c ≤ '9'

/-- The text without its leading decimal digits. -/
def dropDigits : List Char → List Char
  | [] => []
  | c :: cs => if isDigit c then dropDigits cs else c :: cs

/-- The exponent part of a number, if any. -/
def scanExponent (cs : List Char) : Option (List Char) :=
  match cs with
  | e :: rest =>
    if e = 'e' ∨ e = 'E' then
      let rest := match rest with
        | s :: t => if s = '+' ∨ s = '-' then t else s :: t
        | [] => []
      match rest with
      | d :: t => if isDigit d then some (dropDigits t) else none
      | [] => none
    else some cs
  | [] => some cs

/-- The fraction part of a number, if any, followed by the exponent part. -/
def scanFraction (cs : List Char) : Option (List Char) :=
  match cs with
  | p :: rest =>
    if p = '.' then
      match rest with
      | d :: t => if isDigit d then scanExponent (dropDigits t) else none
      | [] => none
    else scanExponent cs
  | [] => some cs

/-- A JSON number at the head of `cs`; the result is what follows it. -/
def scanNumber (cs : List Char) : Option (List Char) :=
  let cs := match cs with
    | m :: t => if m = '-' then t else m :: t
    | [] => []
  match cs with
  | d :: t =>
    if d = '0' then scanFraction t
    else if isDigit d then scanFraction (dropDigits t)
    else none
  | [] => none

/-- The literal `lit` at the head of `cs`; the result is what follows it. -/
def scanLiteral (lit : List Char) (cs : List Char) : Option (List Char) :=
  if lit <+: cs then some (cs.drop lit.length) else none

/-- The deepest nesting of arrays and objects the scanner accepts. -/
def maxNestingDepth : Nat := 10000

mutual
/-- A JSON value at the head of `cs` (no leading white space). -/
def parseValue : Nat → Nat → List Char → Option (JSON × List Char)
  | 0, _, _ => none
  | fuel + 1, depth, cs =>
    match cs with
    | [] => none
    | c :: rest =>
      if c = '"' then (unquote rest).map fun (s, r) => (.string s, r)
      else if c = '{' then
        if depth + 1 > maxNestingDepth then none
        else match skipSpace rest with
          | [] => none
          | c1 :: rest1 =>
            if c1 = '}' then some (.object [], rest1)
            else (parseMembers fuel (depth + 1) (c1 :: rest1)).map fun (ms, r) => (.object ms, r)
      else if c = '[' then
        if depth + 1 > maxNestingDepth then none
        else match skipSpace rest with
          | [] => none
          | c1 :: rest1 =>
            if c1 = ']' then some (.array [], rest1)
            else (parseElements fuel (depth + 1) (c1 :: rest1)).map fun (xs, r) => (.array xs, r)
      else if c = 't' then (scanLiteral "true".data cs).map fun r => (.bool true, r)
      else if c = 'f' then (scanLiteral "false".data cs).map fun r => (.bool false, r)
      else if c = 'n' then (scanLiteral "null".data cs).map fun r => (.null, r)
      else (scanNumber cs).map fun r => (.number (cs.take (cs.length - r.length)), r)
/-- The members of an object, from the first key up to and including the closing brace. -/
def parseMembers : Nat → Nat → List Char → Option (List (List Char × JSON) × List Char)
  | 0, _, _ => none
  | fuel + 1, depth, cs =>
    match cs with
    | [] => none
    | q :: rest =>
      if q = '"' then
        match unquote rest with
        | none => none
        | some (key, rest1) =>
          match skipSpace rest1 with
          | [] => none
          | colon :: rest2 =>
            if colon = ':' then
              match parseValue fuel depth (skipSpace rest2) with
              | none => none
              | some (v, rest3) =>
                match skipSpace rest3 with
                | [] => none
                | sep :: rest4 =>
                  if sep = '}' then some ([(key, v)], rest4)
                  else if sep = ',' then
                    (parseMembers fuel depth (skipSpace rest4)).map fun (ms, r) =>
                      ((key, v) :: ms, r)
                  else none
            else none
      else none
/-- The elements of an array, from the first element up to and including the closing bracket. -/
def parseElements : Nat → Nat → List Char → Option (List JSON × List Char)
  | 0, _, _ => none
  | fuel + 1, depth, cs =>
    match parseValue fuel depth cs with
    | none => none
    | some (v, rest) =>
      match skipSpace rest with
      | [] => none
      | sep :: rest1 =>
        if sep = ']' then some ([v], rest1)
        else if sep = ',' then
          (parseElements fuel depth (skipSpace rest1)).map fun (xs, r) => (v :: xs, r)
        else none
end

/-- The whole text is one JSON value surrounded by optional white space. -/
def parseJSON (data : List Char) : Option JSON :=
  match parseValue (2 * data.length + 2) 0 (skipSpace data) with
  | none => none
  | some (v, rest) => if skipSpace rest = [] then some v else none

/-! ## `Payload` and its JSON form (listener-service/event/consumer.go) -/

/-- The struct `Payload` with its two string fields, tagged `name` and `data`. -/
structure Payload where
  Name : String
  Data : String
  deriving DecidableEq, Repr

/-- The zero value a `var payload Payload` declaration gives. -/
def Payload.zero : Payload := ⟨"", ""⟩

/-- The non-nil errors of `json.Unmarshal`: a `*json.SyntaxError`, or a
`*json.UnmarshalTypeError` whose `Value` names the JSON kind that did not fit. -/
inductive UnmarshalError where
  | invalidSyntax
  | typeMismatch (value : String)
  deriving DecidableEq, Repr

/-- The two fields of `Payload` a JSON key can address. -/
inductive PayloadField where
  | name
  | data
  deriving DecidableEq, Repr

/-- The lower-case form of an ASCII capital letter; any other character is unchanged. -/
def asciiLower (c : Char) : Char :=
  if 'A' ≤ c ∧ c ≤ 'Z' then Char.ofNat (c.toNat + 32) else c

/-- The field a key selects: the exact tag first, else the tag up to letter case. -/
def lookupField (key : List Char) : Option PayloadField :=
  if key = "name".data then some .name
  else if key = "data".data then some .data
  else if key.map asciiLower = "name".data then some .name
  else if key.map asciiLower = "data".data then some .data
  else none

/-- The word `UnmarshalTypeError.Value` uses for a JSON value. -/
def valueKind : JSON → String
  | .null => "null"
  | .bool _ => "bool"
  | .number _ => "number"
  | .string _ => "string"
  | .array _ => "array"
  | .object _ => "object"

/-- The payload with field `f` set to `s`. -/
def setField (p : Payload) (f : PayloadField) (s : String) : Payload :=
  match f with
  | .name => { p with Name := s }
  | .data => { p with Data := s }

/-- Storing a JSON value into a string field: a string is stored, `null` leaves the field
as it is, any other value is a type error and leaves the field as it is. -/
def storeField (p : Payload) (f : PayloadField) (v : JSON) : Payload × Option UnmarshalError :=
  match v with
  | .string s => (setField p f (String.mk s), none)
  | .null => (p, none)
  | v => (p, some (.typeMismatch (valueKind v)))

/-- The decoder keeps the first error it meets and goes on. -/
def saveError (saved new : Option UnmarshalError) : Option UnmarshalError :=
  match saved with
  | some e => some e
  | none => new

/-- Decoding the members of an object into a `Payload`, in order; keys that select no
field are skipped. -/
def decodeMembers :
    List (List Char × JSON) → Payload × Option UnmarshalError → Payload × Option UnmarshalError
  | [], st => st
  | (key, v) :: ms, (p, saved) =>
    match lookupField key with
    | none => decodeMembers ms (p, saved)
    | some f =>
      let (p1, e) := storeField p f v
      decodeMembers ms (p1, saveError saved e)

/-- Decoding a JSON value into a `Payload`: only an object has members to store; `null`
changes nothing; any other value is a type error and changes nothing. -/
def decodeValue (v : JSON) (p : Payload) : Payload × Option UnmarshalError :=
  match v with
  | .object ms => decodeMembers ms (p, none)
  | .null => (p, none)
  | v => (p, some (.typeMismatch (valueKind v)))

/-- The call `json.Unmarshal(data, &v)`: the new content of `v` and the returned error.
The text is checked as a whole first; on a syntax error `v` is not touched. -/
def jsonUnmarshal (data : String) (v : Payload) : Payload × Option UnmarshalError :=
  match parseJSON data.data with
  | none => (v, some .invalidSyntax)
  | some j => decodeValue j v

/-- ASCII characters the encoder copies as they are when HTML escaping is on. -/
def htmlSafe (c : Char) : Bool :=
  0x20 ≤ c.toNat && c.toNat < 0x80 && c != '"' && c != '\\' && c != '<' && c != '>' && c != '&'

/-- The lower-case hexadecimal digit for `n < 16`. -/
def hexDigit (n : Nat) : Char :=
  "0123456789abcdef".data.getD n '0'

/-- The encoding of one character inside a JSON string literal. -/
def escapeChar (c : Char) : List Char :=
  if c.toNat < 0x80 then
    if htmlSafe c then [c]
    else if c = '\\' ∨ c = '"' then ['\\', c]
    else if c = Char.ofNat 8 then ['\\', 'b']
    else if c = Char.ofNat 12 then ['\\', 'f']
    else if c = '\n' then ['\\', 'n']
    else if c = '\r' then ['\\', 'r']
    else if c = '\t' then ['\\', 't']
    else ['\\', 'u', '0', '0', hexDigit (c.toNat / 16), hexDigit (c.toNat % 16)]
  else if c = Char.ofNat 0x2028 ∨ c = Char.ofNat 0x2029 then
    ['\\', 'u', '2', '0', '2', hexDigit (c.toNat % 16)]
  else [c]

/-- The JSON string literal for `s`, quotes included. -/
def appendString (s : List Char) : List Char :=
  '"' :: (s.flatMap escapeChar ++ ['"'])

/-- The call `json.MarshalIndent(entry, pfx, indent)` on a `Payload`: the two members in
field order, each on a line of its own. -/
def jsonMarshalIndent (entry : Payload) (pfx indent : String) : String :=
  String.mk ("\x7b\n".data ++ pfx.data ++ indent.data ++ "\"name\": ".data
    ++ appendString entry.Name.data
    ++ ",\n".data ++ pfx.data ++ indent.data ++ "\"data\": ".data
    ++ appendString entry.Data.data
    ++ "\n".data ++ pfx.data ++ "\x7d".data)

/-! ## `logEvent` and `handlePayload` (listener-service/event/consumer.go) -/

/-- An `*http.Request` as far as `logEvent` fills it. -/
structure HttpRequest where
  method : String
  url : String
  header : List (String × String)
  body : String
  deriving DecidableEq, Repr

/-- An `*http.Response`; only the status code is read. -/
structure HttpResponse where
  StatusCode : Nat
  deriving DecidableEq, Repr

/-- The constant `http.StatusAccepted`. -/
def StatusAccepted : Nat := 202

/-- The outside world of `logEvent`: the verdict of `http.NewRequest` on a method and URL
(`none` when it accepts them) and the answer of `client.Do` to a request. -/
structure HttpWorld where
  newRequestError : String → String → Option GoError
  roundTrip : HttpRequest → Except GoError HttpResponse

/-- The call `http.NewRequest(method, url, body)`. -/
def httpNewRequest (w : HttpWorld) (method url : String) (body : String) :
    Except GoError HttpRequest :=
  match w.newRequestError method url with
  | some e => .error e
  | none => .ok ⟨method, url, [], body⟩

/-- The call `request.Header.Set(key, value)`: the key gets this single value. -/
def headerSet (request : HttpRequest) (key value : String) : HttpRequest :=
  { request with header := (key, value) :: request.header.filter (fun kv => kv.1 != key) }

/-- What a handler does to the outside world, in program order. -/
inductive HandlerEvent where
  /-- The call `logEvent(entry)`. -/
  | logEvent (entry : Payload)
  /-- The call `client.Do(request)`. -/
  | httpDo (request : HttpRequest)
  /-- The deferred `response.Body.Close()`. -/
  | bodyClose
  /-- The call `log.Println(err)`. -/
  | println (err : GoError)
  deriving DecidableEq, Repr

/-- The function `logEvent`: the returned error and the events it caused. -/
def logEvent (w : HttpWorld) (entry : Payload) : Option GoError × List HandlerEvent :=
  let jsonData := jsonMarshalIndent entry "" "\t"
  let logServiceURL := "http://logger-service/log"
  match httpNewRequest w "POST" logServiceURL jsonData with
  | .error err => (some err, [])
  | .ok request =>
    let request := headerSet request "Content-Type" "application/json"
    match w.roundTrip request with
    | .error err => (some err, [.httpDo request])
    | .ok response =>
      -- `client.Do` succeeded, so the variable `err` holds nil from here on
      let err : Option GoError := none
      if response.StatusCode ≠ StatusAccepted then
        (err, [.httpDo request, .bodyClose])
      else
        (none, [.httpDo request, .bodyClose])

/-- The branch `err := logEvent(payload); if err != nil { log.Println(err) }`. -/
def forwardAndReport (w : HttpWorld) (payload : Payload) : List HandlerEvent :=
  let (err, events) := logEvent w payload
  match err with
  | some e => .logEvent payload :: events ++ [.println e]
  | none => .logEvent payload :: events

/-- The function `handlePayload`: the events it caused. -/
def handlePayload (w : HttpWorld) (payload : Payload) : List HandlerEvent :=
  if payload.Name = "log" ∨ payload.Name = "event" then
    forwardAndReport w payload
  else if payload.Name = "auth" then
    []
  else
    forwardAndReport w payload

/-- The payloads of the forwarding calls (calls of `logEvent`) in a handler trace. -/
def forwardingCalls : List HandlerEvent → List Payload
  | [] => []
  | .logEvent entry :: rest => entry :: forwardingCalls rest
  | _ :: rest => forwardingCalls rest

/-- The requests handed to `client.Do` in a handler trace. -/
def requestsSent : List HandlerEvent → List HttpRequest
  | [] => []
  | .httpDo request :: rest => request :: requestsSent rest
  | _ :: rest => requestsSent rest

/-- A log service that accepts every request and answers with the given status. -/
def worldAnswering (status : Nat) : HttpWorld :=
  ⟨fun _ _ => none, fun _ => .ok ⟨status⟩⟩

/-! ## `Listen` (listener-service/event/consumer.go, event.go) -/

/-- The arguments of `ch.ExchangeDeclare`; `args = none` is the nil table. -/
structure ExchangeDeclareArgs where
  name : String
  kind : String
  durable : Bool
  autoDelete : Bool
  internal : Bool
  noWait : Bool
  args : Option (List (String × String))
  deriving DecidableEq, Repr

/-- The arguments of `ch.QueueDeclare`; `args = none` is the nil table. -/
structure QueueDeclareArgs where
  name : String
  durable : Bool
  autoDelete : Bool
  exclusive : Bool
  noWait : Bool
  args : Option (List (String × String))
  deriving DecidableEq, Repr

/-- The arguments of `ch.QueueBind`. -/
structure QueueBindArgs where
  name : String
  key : String
  exchange : String
  noWait : Bool
  args : Option (List (String × String))
  deriving DecidableEq, Repr

/-- The arguments of `ch.Consume`. -/
structure ConsumeArgs where
  queue : String
  consumer : String
  autoAck : Bool
  exclusive : Bool
  noLocal : Bool
  noWait : Bool
  args : Option (List (String × String))
  deriving DecidableEq, Repr

/-- The requests a listener can put on the wire through the AMQP client. -/
inductive AmqpRequest where
  /-- The call `conn.Channel()`. -/
  | channelOpen
  | exchangeDeclare (a : ExchangeDeclareArgs)
  | queueDeclare (a : QueueDeclareArgs)
  | queueBind (a : QueueBindArgs)
  | queueUnbind (a : QueueBindArgs)
  | consume (a : ConsumeArgs)
  | ack (tag : Nat)
  | nack (tag : Nat)
  | reject (tag : Nat)
  /-- The call `ch.Close()`. -/
  | channelClose
  deriving DecidableEq, Repr

/-- The struct `amqp.Queue`. -/
structure Queue where
  Name : String
  Messages : Nat
  Consumers : Nat
  deriving DecidableEq, Repr

/-- An `amqp.Delivery`; only the body is read. -/
structure Delivery where
  Body : String
  deriving DecidableEq, Repr

/-- The broker as seen through one connection while one component runs: its answer to
`conn.Channel()`, to an exchange declaration, to a queue declaration, to the `i`-th bind
request on the channel (counted from 0), and to a consume registration, which on success
is the sequence of deliveries the channel will carry. -/
structure Broker where
  channel : Option GoError
  exchangeDeclare : ExchangeDeclareArgs → Option GoError
  queueDeclare : QueueDeclareArgs → Queue × Option GoError
  queueBind : Nat → QueueBindArgs → Option GoError
  consume : ConsumeArgs → Except GoError (List Delivery)

/-- The function `declareExchange`: the request it issues and the error it returns. -/
def declareExchange (b : Broker) : AmqpRequest × Option GoError :=
  let a : ExchangeDeclareArgs := ⟨"logs_topic", "topic", true, false, false, false, none⟩
  (.exchangeDeclare a, b.exchangeDeclare a)

/-- The function `declareRandomQueue`: the request it issues and what it returns. -/
def declareRandomQueue (b : Broker) : AmqpRequest × Queue × Option GoError :=
  let a : QueueDeclareArgs := ⟨"", false, false, true, false, none⟩
  (.queueDeclare a, b.queueDeclare a)

/-- The arguments `Listen` binds the routing key `s` with. -/
def bindArgs (queue s : String) : QueueBindArgs :=
  ⟨queue, s, "logs_topic", false, none⟩

/-- The loop `for _, s := range topics { err = ch.QueueBind(...); if err != nil { return err } }`.
`i` counts the bind requests issued so far and `requests` collects them; the result is the
error that ended the loop early, if any. -/
def bindTopics (b : Broker) (queue : String) :
    List String → Nat → List AmqpRequest → Option GoError × List AmqpRequest
  | [], _, requests => (none, requests)
  | s :: rest, i, requests =>
    match b.queueBind i (bindArgs queue s) with
    | some err => (some err, requests ++ [.queueBind (bindArgs queue s)])
    | none => bindTopics b queue rest (i + 1) (requests ++ [.queueBind (bindArgs queue s)])

/-- The consume loop `for d := range messages { ... go handlePayload(payload) }`:
`started` lists the payloads of the `handlePayload` goroutines started so far. -/
def consumeLoop : List Delivery → List Payload → List Payload
  | [], started => started
  | d :: rest, started =>
    -- var payload Payload
    let payload := Payload.zero
    -- _ = json.Unmarshal(d.Body, &payload)
    let payload := (jsonUnmarshal d.Body payload).1
    -- go handlePayload(payload)
    consumeLoop rest (started ++ [payload])

/-- Everything one delivery causes: the loop body on `d` and the handler it starts, run
against the log service `w`. -/
def processDelivery (w : HttpWorld) (d : Delivery) : List HandlerEvent :=
  (consumeLoop [d] []).flatMap (handlePayload w)

/-- How a call of `Listen` ends: it returns an error value, or it waits on `<-forever`. -/
inductive ListenOutcome where
  | returned (err : Option GoError)
  | blocked
  deriving DecidableEq, Repr

/-- A run of `Listen`: how it ends, the AMQP requests it issued in order (the deferred
`ch.Close()` included) and the payloads of the handlers its consume loop started. -/
structure ListenResult where
  outcome : ListenOutcome
  requests : List AmqpRequest
  started : List Payload
  deriving DecidableEq, Repr

/-- The arguments of the `ch.Consume` call in `Listen`. -/
def consumeArgs (queue : String) : ConsumeArgs :=
  ⟨queue, "", true, false, false, false, none⟩

/-- The method `Listen`. The console line written before blocking is not recorded. -/
def Listen (b : Broker) (topics : List String) : ListenResult :=
  match b.channel with
  | some err => ⟨.returned (some err), [.channelOpen], []⟩
  | none =>
    -- from here on `defer ch.Close()` runs at every return
    let (declare, q, err) := declareRandomQueue b
    match err with
    | some err => ⟨.returned (some err), [.channelOpen, declare, .channelClose], []⟩
    | none =>
      match bindTopics b q.Name topics 0 [.channelOpen, declare] with
      | (some err, requests) => ⟨.returned (some err), requests ++ [.channelClose], []⟩
      | (none, requests) =>
        match b.consume (consumeArgs q.Name) with
        | .error err =>
          ⟨.returned (some err), requests ++ [.consume (consumeArgs q.Name), .channelClose], []⟩
        | .ok messages =>
          ⟨.blocked, requests ++ [.consume (consumeArgs q.Name)], consumeLoop messages []⟩

/-- The struct `Consumer`; `conn = none` is the nil pointer. -/
structure Consumer where
  conn : Option Connection
  queueName : String
  deriving DecidableEq, Repr

/-- The zero value `Consumer{}`. -/
def Consumer.zero : Consumer := ⟨none, ""⟩

/-- The method `setup`: the error it returns and the AMQP requests it issued, in order,
on the connection the consumer holds. -/
def Consumer.setup (b : Broker) (_consumer : Consumer) : Option GoError × List AmqpRequest :=
  match b.channel with
  | some err => (some err, [.channelOpen])
  | none =>
    let (declare, err) := declareExchange b
    (err, [.channelOpen, declare])

/-- A run of `NewConsumer`: the pair it returns and the AMQP requests it issued. -/
structure NewConsumerResult where
  consumer : Consumer
  err : Option GoError
  requests : List AmqpRequest
  deriving DecidableEq, Repr

/-- The function `NewConsumer`, called with a live connection. -/
def NewConsumer (b : Broker) (conn : Connection) : NewConsumerResult :=
  let consumer : Consumer := ⟨some conn, ""⟩
  match Consumer.setup b consumer with
  | (some err, requests) => ⟨Consumer.zero, some err, requests⟩
  | (none, requests) => ⟨consumer, none, requests⟩

/-! ## The broker's table of exchanges -/

/-- The properties of two exchange descriptors agree (the name and the `no-wait` flag of
the request apart). -/
def sameExchange (x a : ExchangeDeclareArgs) : Bool :=
  x.kind == a.kind && x.durable == a.durable && x.autoDelete == a.autoDelete
    && x.internal == a.internal && x.args == a.args

/-- Modelled from the spec: the broker's side of an exchange declaration, which is not
code of this repository. The broker holds a table of exchanges; declaring a name that is
not in the table adds the exchange, redeclaring an existing name with equal properties is
accepted and changes nothing, and redeclaring it with other properties is refused and
changes nothing. The result is the table afterwards and the answer to the request. -/
def exchangeTableDeclare (table : List ExchangeDeclareArgs) (a : ExchangeDeclareArgs) :
    List ExchangeDeclareArgs × Option GoError :=
  match table.find? (fun x => x.name == a.name) with
  | none => (table ++ [a], none)
  | some x =>
    if sameExchange x a then (table, none)
    else (table, some ⟨"PRECONDITION_FAILED - inequivalent arg for exchange"⟩)

/-- The channel `ch` when the broker behind it holds the exchanges of `table`. -/
def channelOn (table : List ExchangeDeclareArgs) (ch : Broker) : Broker :=
  { ch with exchangeDeclare := fun a => (exchangeTableDeclare table a).2 }

/-- One call of `declareExchange` on the channel `ch` of a broker holding `table`: the
table afterwards and the error returned. -/
def declareExchangeOn (table : List ExchangeDeclareArgs) (ch : Broker) :
    List ExchangeDeclareArgs × Option GoError :=
  match declareExchange (channelOn table ch) with
  | (.exchangeDeclare a, err) => ((exchangeTableDeclare table a).1, err)
  | (_, err) => (table, err)

/-! ## `main` (listener-service/main.go) -/

/-- What the listener process does to the outside world, in program order. -/
inductive MainEvent where
  /-- An event of the call `connect()`. -/
  | connect (e : ConnectEvent)
  /-- The call `log.Println(...)` with the line it prints. -/
  | logPrintln (line : String)
  /-- A request of `NewConsumer` or `Listen`. -/
  | amqp (r : AmqpRequest)
  /-- The deferred `rabbitConn.Close()`. -/
  | connectionClose
  deriving DecidableEq, Repr

/-- How the process ends: `os.Exit(status)`, a panic (deferred calls run, then the runtime
stops the process), a return from `main`, or never (the main goroutine stays blocked). -/
inductive ProcessEnd where
  | exit (status : Nat)
  | panicked (err : GoError)
  | returned
  | blocked
  deriving DecidableEq, Repr

/-- The exit status of the process: the argument of `os.Exit`, 2 after a panic, 0 after
`main` returns; a blocked process has none. -/
def exitStatus : ProcessEnd → Option Nat
  | .exit status => some status
  | .panicked _ => some 2
  | .returned => some 0
  | .blocked => none

/-- A run of `main`: how the process ends, what it did, and the payloads of the handlers
its consume loop started. -/
structure MainResult where
  ending : ProcessEnd
  events : List MainEvent
  started : List Payload
  deriving DecidableEq, Repr

/-- The function `main`. `dial` answers the dials of `connect` (run with `fuel`),
`setupBroker` answers the requests of `NewConsumer` and `listenBroker` those of `Listen`. -/
def main (fuel : Nat) (dial : Nat → Except GoError Connection)
    (setupBroker listenBroker : Broker) : Option MainResult :=
  match connect fuel dial with
  | none => none
  | some r =>
    let events := r.trace.map MainEvent.connect
    match r.err with
    | some err =>
      -- log.Println(err); os.Exit(1)
      some ⟨.exit 1, events ++ [.logPrintln err.msg], []⟩
    | none =>
      match r.connection with
      | none =>
        -- unreachable: `connect` returns a connection whenever its error is nil
        some ⟨.panicked ⟨"invalid memory address or nil pointer dereference"⟩, events, []⟩
      | some rabbitConn =>
        -- from here on `defer rabbitConn.Close()` runs when `main` returns or panics
        let events := events ++ [.logPrintln "Listening for and consuming RabbitMQ messages..."]
        let created := NewConsumer setupBroker rabbitConn
        let events := events ++ created.requests.map MainEvent.amqp
        match created.err with
        | some err =>
          -- panic(err)
          some ⟨.panicked err, events ++ [.connectionClose], []⟩
        | none =>
          let listened := Listen listenBroker ["log.INFO", "log.WARNING", "log.ERROR"]
          let events := events ++ listened.requests.map MainEvent.amqp
          match listened.outcome with
          | .blocked => some ⟨.blocked, events, listened.started⟩
          | .returned (some err) =>
            -- log.Println(err), then `main` returns
            some ⟨.returned, events ++ [.logPrintln err.msg, .connectionClose], []⟩
          | .returned none =>
            some ⟨.returned, events ++ [.connectionClose], []⟩

/-! ## `readJSON` and `WriteLog` (logger-service/cmd/api/helpers.go, handlers.go) -/

/-- How the stream behind `http.MaxBytesReader` ends: with the end of the body, or with
the error `http: request body too large` once the limit is used up. -/
inductive StreamEnd where
  | eof
  | tooLarge
  deriving DecidableEq, Repr

/-- The number of bytes of the UTF-8 encoding of a text. -/
def byteLength : List Char → Nat
  | [] => 0
  | c :: cs => c.utf8Size + byteLength cs

/-- The reader `http.MaxBytesReader(w, r.Body, n)` over a body: the text it lets through
and how the stream ends. A character the limit cuts in two leaves its first bytes, each of
which reads as `U+FFFD`. -/
def maxBytesReader : Nat → List Char → List Char × StreamEnd
  | _, [] => ([], .eof)
  | n, c :: cs =>
    if c.utf8Size ≤ n then
      ((c :: (maxBytesReader (n - c.utf8Size) cs).1), (maxBytesReader (n - c.utf8Size) cs).2)
    else (List.replicate n replacementChar, .tooLarge)

/-- The non-nil errors of `(*json.Decoder).Decode`: `io.EOF` when nothing but white space
is left before the end of the stream; the error of the reader; a text that holds no
complete JSON value (`*json.SyntaxError`, or `io.ErrUnexpectedEOF` or the reader's error
for a value cut short); an error of storing the value into the target. -/
inductive DecodeError where
  | eof
  | readError
  | malformed
  | unmarshal (e : UnmarshalError)
  deriving DecidableEq, Repr

/-- The value is complete as soon as its last character is read: an object or an array.
Any other value ends only when the character after it, or the end of the stream, is
seen. -/
def endsAtBracket : JSON → Bool
  | .object _ => true
  | .array _ => true
  | _ => false

/-- One call `dec.Decode(&target)` on the unread text `input` of a stream that ends with
`ending`; `store` puts a JSON value into the target. The result is the target afterwards,
the error returned and the text left unread. -/
def decoderDecode {α : Type} (store : JSON → α → α × Option UnmarshalError)
    (input : List Char) (ending : StreamEnd) (target : α) :
    α × Option DecodeError × List Char :=
  if skipSpace input = [] then
    match ending with
    | .eof => (target, some .eof, [])
    | .tooLarge => (target, some .readError, [])
  else
    match parseValue (2 * input.length + 2) 0 (skipSpace input) with
    | none => (target, some .malformed, [])
    | some (v, rest) =>
      if endsAtBracket v = false ∧ rest = [] ∧ ending = .tooLarge then
        (target, some .readError, [])
      else
        ((store v target).1, (store v target).2.map .unmarshal, rest)

/-- Storing a JSON value into a `struct{}`: an object (none of its keys has a field) and
`null` are accepted, any other value is a type error. -/
def decodeEmptyStruct (v : JSON) (target : Unit) : Unit × Option UnmarshalError :=
  match v with
  | .object _ => (target, none)
  | .null => (target, none)
  | v => (target, some (.typeMismatch (valueKind v)))

/-- The non-nil errors of `readJSON`: the error of the first `Decode`, or an error made
with `errors.New`. -/
inductive ReadError where
  | decode (e : DecodeError)
  | other (e : GoError)
  deriving DecidableEq, Repr

/-- The method `readJSON` with a `*JSONPayload` target (the struct has the fields and tags
of `Payload`): the target afterwards and the error returned. -/
def readJSON (body : String) (data : Payload) : Payload × Option ReadError :=
  let maxBytes := 1048576
  let stream := maxBytesReader maxBytes body.data
  -- err := dec.Decode(data)
  match decoderDecode decodeValue stream.1 stream.2 data with
  | (data, some err, _) => (data, some (.decode err))
  | (data, none, unread) =>
    -- err = dec.Decode(&struct{}{})
    match (decoderDecode decodeEmptyStruct unread stream.2 ()).2.1 with
    | some .eof => (data, none)
    | _ => (data, some (.other ⟨"body must have only a single JSON value"⟩))

/-- The struct `jsonResponse`. `Data` holds the JSON text of the value in the `any`
field, `none` for the nil interface. -/
structure jsonResponse where
  Error : Bool
  Message : String
  Data : Option String
  deriving DecidableEq, Repr

/-- The call `json.Marshal(data)` on a `jsonResponse`: the members in field order, the
`data` member left out when the field is nil. -/
def jsonMarshalResponse (data : jsonResponse) : String :=
  String.mk ("\x7b\"error\":".data ++ (if data.Error then "true" else "false").data
    ++ ",\"message\":".data ++ appendString data.Message.data
    ++ (match data.Data with
        | none => []
        | some d => ",\"data\":".data ++ d.data)
    ++ "\x7d".data)

/-- What a handler does to its `http.ResponseWriter`, in program order. -/
inductive ResponseEvent where
  /-- The assignment `w.Header()[key] = values`. -/
  | headerAssign (key : String) (values : List String)
  /-- The call `w.Header().Set(key, value)`. -/
  | headerSet (key value : String)
  /-- The call `w.WriteHeader(status)`. -/
  | writeHeader (status : Nat)
  /-- The call `w.Write(body)`. -/
  | write (body : String)
  deriving DecidableEq, Repr

/-- The struct `data.LogEntry` as far as `WriteLog` fills it. -/
structure LogEntry where
  Name : String
  Data : String
  deriving DecidableEq, Repr

/-- The outside world of the log service: the answer of `app.Models.LogEntry.Insert` to an
entry and the error of `w.Write` on a response body (`none` for nil). -/
structure LogStore where
  insert : LogEntry → Option GoError
  write : String → Option GoError

/-- The constant `http.StatusBadRequest`. -/
def StatusBadRequest : Nat := 400

/-- The method `writeJSON`: the error returned and what was done to the response writer.
`json.Marshal` has no error on a `jsonResponse`. -/
def writeJSON (store : LogStore) (status : Nat) (data : jsonResponse)
    (headers : List (List (String × List String))) : Option GoError × List ResponseEvent :=
  let out := jsonMarshalResponse data
  let copied : List ResponseEvent :=
    match headers with
    | [] => []
    | first :: _ => first.map fun kv => .headerAssign kv.1 kv.2
  let events := copied ++ [.headerSet "Content-Type" "application/json", .writeHeader status,
    .write out]
  match store.write out with
  | some err => (some err, events)
  | none => (none, events)

/-- The method `errorJSON`. -/
def errorJSON (store : LogStore) (err : GoError) (status : List Nat) :
    Option GoError × List ResponseEvent :=
  let statusCode :=
    match status with
    | [] => StatusBadRequest
    | first :: _ => first
  let payload : jsonResponse := { Error := true, Message := err.msg, Data := none }
  writeJSON store statusCode payload []

/-- What the handler `WriteLog` does, in program order. -/
inductive ServerEvent where
  /-- The call `app.Models.LogEntry.Insert(event)`. -/
  | insert (entry : LogEntry)
  /-- An operation on the response writer. -/
  | response (e : ResponseEvent)
  deriving DecidableEq, Repr

/-- The handler `WriteLog` on a request with the given body. -/
def WriteLog (store : LogStore) (body : String) : List ServerEvent :=
  -- var requestPayload JSONPayload; _ = app.readJSON(w, r, &requestPayload)
  let requestPayload := (readJSON body Payload.zero).1
  let event : LogEntry := { Name := requestPayload.Name, Data := requestPayload.Data }
  match store.insert event with
  | some err => .insert event :: (errorJSON store err []).2.map .response
  | none =>
    let resp : jsonResponse := { Error := false, Message := "logged", Data := none }
    .insert event :: (writeJSON store StatusAccepted resp []).2.map .response

/-- A store that accepts every entry but those named `refused`. -/
def storeRefusing (refused : String) : LogStore where
  insert := fun entry => if entry.Name = refused then some ⟨"insert failed"⟩ else none
  write := fun _ => none

/-! ## `getEncryption` (mail-service/cmd/api/mailer.go) -/

/-- The constants of the type `mail.Encryption` of the SMTP client library. -/
inductive Encryption where
  | EncryptionNone
  | EncryptionSSL
  | EncryptionTLS
  | EncryptionSSLTLS
  | EncryptionSTARTTLS
  deriving DecidableEq, Repr

/-- The method `getEncryption`. -/
def getEncryption (s : String) : Encryption :=
  if s = "tls" then .EncryptionSTARTTLS
  else if s = "ssl" then .EncryptionSSLTLS
  else if s = "none" ∨ s = "" then .EncryptionNone
  else .EncryptionSTARTTLS

/-! ## Measures on traces -/

/-- The errors written with `log.Println` in a handler trace, in order. -/
def logLines : List HandlerEvent → List GoError
  | [] => []
  | .println err :: rest => err :: logLines rest
  | _ :: rest => logLines rest

/-- The total time slept in a trace of `connect`, in nanoseconds. -/
def totalSleep : List ConnectEvent → Nat
  | [] => 0
  | .sleep d :: rest => d + totalSleep rest
  | .dial _ :: rest => totalSleep rest

/-- The number of dial attempts in a trace of `connect`. -/
def dialCount : List ConnectEvent → Nat
  | [] => 0
  | .dial _ :: rest => 1 + dialCount rest
  | .sleep _ :: rest => dialCount rest

/-- The routing keys of the bind requests among the events of a run of `main`, in order. -/
def bindKeys : List MainEvent → List String
  | [] => []
  | .amqp (.queueBind a) :: rest => a.key :: bindKeys rest
  | _ :: rest => bindKeys rest

/-! ## Topic-exchange matching -/

/-- The segments of a routing key or pattern: the text between the dots. -/
def splitDots : List Char → List (List Char)
  | [] => [[]]
  | c :: cs =>
    if c = '.' then [] :: splitDots cs
    else
      match splitDots cs with
      | seg :: rest => (c :: seg) :: rest
      | [] => [[c]]

/-- The segments put together again, with a dot between neighbours. -/
def joinDots : List (List Char) → List Char
  | [] => []
  | [seg] => seg
  | seg :: next :: rest => seg ++ '.' :: joinDots (next :: rest)

/-- Some suffix of `ks` satisfies `f`. -/
def anySuffix (f : List (List Char) → Bool) : List (List Char) → Bool
  | [] => f []
  | k :: ks => f (k :: ks) || anySuffix f ks

/-- Modelled from the spec: topic-exchange matching, which the broker performs and no code
of this repository does. A pattern matches a routing key segment by segment: `*` matches
exactly one segment, `#` matches zero or more segments, any other segment matches only
itself. -/
def matchSegments : List (List Char) → List (List Char) → Bool
  | [], ks => ks.isEmpty
  | p :: ps, ks =>
    if p = ['#'] then anySuffix (matchSegments ps) ks
    else
      match ks with
      | [] => false
      | k :: ks => (p = ['*'] || p = k) && matchSegments ps ks

/-- The pattern `pattern` matches the routing key `key`. -/
def topicMatches (pattern key : String) : Bool :=
  matchSegments (splitDots pattern.data) (splitDots key.data)

/-- The pattern has a wildcard segment, `*` or `#`. -/
def hasWildcard (pattern : String) : Bool :=
  (splitDots pattern.data).any fun seg => seg = ['*'] || seg = ['#']

/-- A message with routing key `key` reaches a queue bound with `patterns`. -/
def delivered (patterns : List String) (key : String) : Bool :=
  patterns.any fun pattern => topicMatches pattern key

/-- The consume registrations among a list of requests, in order. -/
def consumeRequests (requests : List AmqpRequest) : List ConsumeArgs :=
  requests.filterMap fun r =>
    match r with
    | .consume a => some a
    | _ => none

/-- The request acknowledges or rejects a delivery. -/
def isAcknowledgement : AmqpRequest → Bool
  | .ack _ => true
  | .nack _ => true
  | .reject _ => true
  | _ => false

/-- A table holding an exchange `logs_topic` of kind `fanout`. -/
def fanoutTable : List ExchangeDeclareArgs :=
  [⟨"logs_topic", "fanout", true, false, false, false, none⟩]

/-- A broker that opens the channel, names the declared queue `amq.gen-1`, refuses every
bind of the routing key `refused` and hands out `messages` to a consumer. -/
def brokerRefusingKey (refused : String) (messages : List Delivery) : Broker where
  channel := none
  exchangeDeclare := fun _ => none
  queueDeclare := fun _ => (⟨"amq.gen-1", 0, 0⟩, none)
  queueBind := fun _ a => if a.key = refused then some ⟨"bind refused"⟩ else none
  consume := fun _ => .ok messages

/-- The trace `connect` has left once its first `n` dial attempts have failed and the
`n` back-off sleeps have been taken. -/
def failTrace : Nat → List ConnectEvent
  | 0 => []
  | n + 1 => failTrace n ++ [.dial n, .sleep (backOff (n + 1))]

/-- A broker that refuses every dial. -/
def dialRefused : Nat → Except GoError Connection :=
  fun k => .error ⟨s!"dial attempt {k}: connection refused"⟩

/-- A broker that refuses the first `k` dials and accepts afterwards. -/
def dialReadyAfter (k : Nat) : Nat → Except GoError Connection :=
  fun i => if i < k then .error ⟨"connection refused"⟩ else .ok ⟨i⟩


/-! ## Theorems: `connect` -/

theorem connectLoop_trace_prefix (dial : Nat → Except GoError Connection) :
    ∀ (fuel counts dials : Nat) (trace : List ConnectEvent) (r : ConnectResult),
      connectLoop dial fuel counts dials trace = some r → trace <+: r.trace := by
  intro fuel
  induction fuel with
  | zero => intro counts dials trace r h; simp [connectLoop] at h
  | succ fuel ih =>
    intro counts dials trace r h
    unfold connectLoop at h
    cases hd : dial dials with
    | ok c =>
      simp only [hd] at h
      cases h
      exact List.prefix_append _ _
    | error e =>
      simp only [hd] at h
      by_cases hc : counts + 1 > 5
      · simp only [hc, if_true] at h
        cases h
        exact List.prefix_append _ _
      · simp only [hc, if_false] at h
        exact (List.prefix_append _ _).trans (ih _ _ _ _ h)

theorem connectLoop_returns (dial : Nat → Except GoError Connection) :
    ∀ (fuel counts dials : Nat) (trace : List ConnectEvent), counts ≤ 5 → 6 ≤ fuel + counts →
      ∃ r, connectLoop dial fuel counts dials trace = some r := by
  intro fuel
  induction fuel with
  | zero =>
    intro counts dials trace h5 h
    omega
  | succ fuel ih =>
    intro counts dials trace h5 h
    unfold connectLoop
    cases hd : dial dials with
    | ok c => exact ⟨_, rfl⟩
    | error e =>
      by_cases hc : counts + 1 > 5
      · simp only [hc, if_true]; exact ⟨_, rfl⟩
      · simp only [hc, if_false]
        exact ih _ _ _ (by omega) (by omega)

theorem connectLoop_dial_prefix (dial : Nat → Except GoError Connection)
    (fuel counts dials : Nat) (trace : List ConnectEvent) (r : ConnectResult)
    (h : connectLoop dial (fuel + 1) counts dials trace = some r) :
    trace ++ [.dial dials] <+: r.trace := by
  unfold connectLoop at h
  cases hd : dial dials with
  | ok c =>
    simp only [hd] at h
    cases h
    exact List.prefix_refl _
  | error e =>
    simp only [hd] at h
    by_cases hc : counts + 1 > 5
    · simp only [hc, if_true] at h
      cases h
      exact List.prefix_refl _
    · simp only [hc, if_false] at h
      have := connectLoop_trace_prefix dial _ _ _ _ _ h
      exact (List.prefix_append_right_inj trace |>.mpr (List.prefix_append [.dial dials] _)
        ).trans (by simpa using this)

theorem connectLoop_failures (dial : Nat → Except GoError Connection) :
    ∀ (n fuel : Nat), n ≤ 5 → (∀ i, i < n → dialFails (dial i)) →
      connectLoop dial (fuel + n) 0 0 [] = connectLoop dial fuel n n (failTrace n) := by
  intro n
  induction n with
  | zero => intro fuel _ _; rfl
  | succ n ih =>
    intro fuel hn hfail
    have hstep : fuel + (n + 1) = (fuel + 1) + n := by omega
    rw [hstep, ih (fuel + 1) (by omega) (fun i hi => hfail i (by omega))]
    obtain ⟨e, he⟩ := hfail n (by omega)
    have hc : ¬ (n + 1 > 5) := by omega
    conv_lhs => unfold connectLoop
    simp only [he, hc, if_false]
    rfl

theorem dialFails_error (e : GoError) : dialFails (.error e) := ⟨e, rfl⟩

/-- C1. In `connect`, for every `n` in `1..5`: when the first `n` dial attempts fail, the
event between the `n`-th and the `(n+1)`-th call of `amqp.Dial` is one `time.Sleep` of
exactly `n^2` seconds. -/
theorem connect_backoff_square (dial : Nat → Except GoError Connection) (fuel n : Nat)
    (hfuel : 6 ≤ fuel) (hn1 : 1 ≤ n) (hn5 : n ≤ 5)
    (hfail : ∀ i, i < n → dialFails (dial i)) :
    ∃ r, connect fuel dial = some r ∧
      r.trace[2 * n - 2]? = some (.dial (n - 1)) ∧
      r.trace[2 * n - 1]? = some (.sleep (n ^ 2 * second)) ∧
      r.trace[2 * n]? = some (.dial n) := by
  obtain ⟨f, rfl⟩ : ∃ f, fuel = (f + 1) + n := ⟨fuel - 1 - n, by omega⟩
  obtain ⟨r, hr⟩ := connectLoop_returns dial (f + 1) n n (failTrace n) hn5 (by omega)
  have hrun : connect (f + 1 + n) dial = some r := by
    rw [connect, connectLoop_failures dial n (f + 1) hn5 hfail, hr]
  obtain ⟨t, ht⟩ := connectLoop_dial_prefix dial f n n (failTrace n) r hr
  refine ⟨r, hrun, ?_⟩
  rw [← ht]
  interval_cases n <;> simp [failTrace, backOff]

theorem connect_backoff_square_witness :
    (∀ i, i < 3 → dialFails (dialRefused i)) ∧
    ∃ r, connect 6 dialRefused = some r ∧
      r.trace[2 * 3 - 2]? = some (.dial (3 - 1)) ∧
      r.trace[2 * 3 - 1]? = some (.sleep (3 ^ 2 * second)) ∧
      r.trace[2 * 3]? = some (.dial 3) :=
  ⟨fun i _ => dialFails_error _,
   connect_backoff_square dialRefused 6 3 (by decide) (by decide) (by decide)
     (fun i _ => dialFails_error _)⟩

/-- C2. `connect` returns a result, and its error is non-nil exactly when the first six
dial attempts all fail; then the connection is nil, the error is the one of the sixth
attempt and exactly six dials were made (the trace ends with the sixth dial, no sleep
follows). If attempt `k + 1` (`k < 6`) is the first to succeed, the result is that
attempt's connection with a nil error and the trace ends with that dial. -/
theorem connect_error_iff_six_failures (dial : Nat → Except GoError Connection) (fuel : Nat)
    (hfuel : 6 ≤ fuel) :
    ∃ r, connect fuel dial = some r ∧
      (r.err ≠ none ↔ ∀ i, i < 6 → dialFails (dial i)) ∧
      ((∀ i, i < 6 → dialFails (dial i)) →
        r.connection = none ∧ r.err = dialError (dial 5) ∧
        r.trace = failTrace 5 ++ [.dial 5] ∧ ConnectEvent.dial 6 ∉ r.trace) ∧
      (∀ k c, k < 6 → (∀ i, i < k → dialFails (dial i)) → dial k = .ok c →
        r.connection = some c ∧ r.err = none ∧ r.trace = failTrace k ++ [.dial k]) := by
  by_cases hall : ∀ i, i < 6 → dialFails (dial i)
  · obtain ⟨f, rfl⟩ : ∃ f, fuel = (f + 1) + 5 := ⟨fuel - 6, by omega⟩
    obtain ⟨e, he⟩ := hall 5 (by omega)
    have hrun : connect (f + 1 + 5) dial = some ⟨none, some e, failTrace 5 ++ [.dial 5]⟩ := by
      rw [connect, connectLoop_failures dial 5 (f + 1) (by omega)
        (fun i hi => hall i (by omega))]
      unfold connectLoop
      simp [he]
    refine ⟨_, hrun, ?_, ?_, ?_⟩
    · exact ⟨fun _ => hall, fun _ => by simp⟩
    · intro _
      refine ⟨rfl, by simp [he, dialError], rfl, ?_⟩
      simp [failTrace]
    · intro k c hk _ hok
      obtain ⟨e', he'⟩ := hall k hk
      rw [hok] at he'
      cases he'
  · have hex : ∃ k, k < 6 ∧ ¬ dialFails (dial k) := by
      by_contra hcon
      exact hall (fun i hi => by_contra (fun hni => hcon ⟨i, hi, hni⟩))
    classical
    have hk := Nat.find_spec hex
    have hmin : ∀ i, i < Nat.find hex → dialFails (dial i) := by
      intro i hi
      by_contra hni
      exact Nat.find_min hex hi ⟨by omega, hni⟩
    generalize Nat.find hex = k at hk hmin
    obtain ⟨hk6, hnf⟩ := hk
    obtain ⟨c, hc⟩ : ∃ c, dial k = .ok c := by
      cases hd : dial k with
      | ok c => exact ⟨c, rfl⟩
      | error e => exact absurd (hd ▸ dialFails_error e) hnf
    obtain ⟨f, rfl⟩ : ∃ f, fuel = (f + 1) + k := ⟨fuel - 1 - k, by omega⟩
    have hrun : connect (f + 1 + k) dial = some ⟨some c, none, failTrace k ++ [.dial k]⟩ := by
      rw [connect, connectLoop_failures dial k (f + 1) (by omega) hmin]
      unfold connectLoop
      simp [hc]
    refine ⟨_, hrun, ?_, ?_, ?_⟩
    · simp [hall]
    · intro h
      exact absurd h hall
    · intro k' c' hk' hpre hok
      have hkk : k' = k := by
        rcases Nat.lt_trichotomy k' k with h | h | h
        · obtain ⟨e, he⟩ := hmin k' h
          rw [hok] at he
          cases he
        · exact h
        · obtain ⟨e, he⟩ := hpre k h
          rw [hc] at he
          cases he
      subst hkk
      rw [hc] at hok
      cases hok
      exact ⟨rfl, rfl, rfl⟩

theorem connect_error_iff_six_failures_witness :
    ∃ r, connect 6 (dialReadyAfter 2) = some r ∧
      (r.err ≠ none ↔ ∀ i, i < 6 → dialFails (dialReadyAfter 2 i)) ∧
      ((∀ i, i < 6 → dialFails (dialReadyAfter 2 i)) →
        r.connection = none ∧ r.err = dialError (dialReadyAfter 2 5) ∧
        r.trace = failTrace 5 ++ [.dial 5] ∧ ConnectEvent.dial 6 ∉ r.trace) ∧
      (∀ k c, k < 6 → (∀ i, i < k → dialFails (dialReadyAfter 2 i)) →
        dialReadyAfter 2 k = .ok c →
        r.connection = some c ∧ r.err = none ∧ r.trace = failTrace k ++ [.dial k]) :=
  connect_error_iff_six_failures (dialReadyAfter 2) 6 (by decide)

/-! ## Theorems: `handlePayload` and `logEvent` -/

theorem forwardingCalls_logEvent (w : HttpWorld) (entry : Payload) :
    forwardingCalls (logEvent w entry).2 = [] := by
  unfold logEvent
  simp only []
  cases httpNewRequest w "POST" "http://logger-service/log" (jsonMarshalIndent entry "" "\t") with
  | error e => rfl
  | ok request =>
    simp only []
    cases w.roundTrip (headerSet request "Content-Type" "application/json") with
    | error e => rfl
    | ok response =>
      simp only []
      split <;> rfl

theorem forwardingCalls_append_println (events : List HandlerEvent) (e : GoError) :
    forwardingCalls (events ++ [.println e]) = forwardingCalls events := by
  induction events with
  | nil => rfl
  | cons x xs ih => cases x <;> simp [forwardingCalls, ih]

theorem forwardingCalls_forwardAndReport (w : HttpWorld) (payload : Payload) :
    forwardingCalls (forwardAndReport w payload) = [payload] := by
  unfold forwardAndReport
  have h := forwardingCalls_logEvent w payload
  cases hl : logEvent w payload with
  | mk err events =>
    rw [hl] at h
    cases err with
    | none => simp [forwardingCalls, h]
    | some e =>
      have h2 := forwardingCalls_append_println events e
      simp only [List.cons_append, forwardingCalls]
      simp only [List.append_eq] at *
      rw [h2]
      simpa using h

theorem forwardingCalls_handlePayload (w : HttpWorld) (payload : Payload) :
    forwardingCalls (handlePayload w payload)
      = if payload.Name = "auth" then [] else [payload] := by
  unfold handlePayload
  by_cases h1 : payload.Name = "log" ∨ payload.Name = "event"
  · have h2 : payload.Name ≠ "auth" := by
      rcases h1 with h | h <;> rw [h] <;> decide
    simp [h1, h2, forwardingCalls_forwardAndReport]
  · by_cases h2 : payload.Name = "auth"
    · simp [h1, h2, forwardingCalls]
    · simp [h1, h2, forwardingCalls_forwardAndReport]

/-- C3. For every payload `p`, `handlePayload p` makes exactly one call of `logEvent`,
with `p` itself, when `p.Name` is not `"auth"`, and none when it is `"auth"`; the names
`"log"`, `"event"`, the empty name and `"metrics"` all run the same forwarding branch. -/
theorem handlePayload_forwards_unless_auth (w : HttpWorld) (p : Payload) (data : String) :
    forwardingCalls (handlePayload w p) = (if p.Name = "auth" then [] else [p]) ∧
    handlePayload w ⟨"auth", data⟩ = [] ∧
    handlePayload w ⟨"log", data⟩ = forwardAndReport w ⟨"log", data⟩ ∧
    handlePayload w ⟨"event", data⟩ = forwardAndReport w ⟨"event", data⟩ ∧
    handlePayload w ⟨"", data⟩ = forwardAndReport w ⟨"", data⟩ ∧
    handlePayload w ⟨"metrics", data⟩ = forwardAndReport w ⟨"metrics", data⟩ := by
  refine ⟨forwardingCalls_handlePayload w p, ?_, ?_, ?_, ?_, ?_⟩ <;>
    simp [handlePayload]

/-- C4 (the code at the failing input). A log service that answers 500 without a transport
error makes `logEvent` return the nil error, although the status is not 202. -/
theorem logEvent_status_500_returns_nil :
    (logEvent (worldAnswering 500) ⟨"log", "x"⟩).1 = none ∧
    (500 : Nat) ≠ StatusAccepted := by
  decide

/-! ## Theorems: the consume loop -/

theorem consumeLoop_eq_map (deliveries : List Delivery) :
    ∀ started : List Payload,
      consumeLoop deliveries started
        = started ++ deliveries.map (fun d => (jsonUnmarshal d.Body Payload.zero).1) := by
  induction deliveries with
  | nil => intro started; simp [consumeLoop]
  | cons d rest ih =>
    intro started
    simp only [consumeLoop, ih, List.map_cons, List.append_assoc, List.singleton_append]

/-- C7. For every finite sequence of deliveries the consume loop starts exactly one
`handlePayload` per delivery, in delivery order, the `i`-th with the decoding of the
`i`-th body into a fresh zero `Payload`; what one body decodes to (error or not) has no
effect on the others, and appending deliveries only appends invocations. -/
theorem consumeLoop_one_handler_per_delivery (deliveries more : List Delivery) :
    consumeLoop deliveries []
      = deliveries.map (fun d => (jsonUnmarshal d.Body Payload.zero).1) ∧
    (consumeLoop deliveries []).length = deliveries.length ∧
    (∀ i : Nat, (consumeLoop deliveries [])[i]?
      = (deliveries[i]?).map (fun d => (jsonUnmarshal d.Body Payload.zero).1)) ∧
    consumeLoop (deliveries ++ more) [] = consumeLoop deliveries [] ++ consumeLoop more [] := by
  have h := consumeLoop_eq_map deliveries []
  simp only [List.nil_append] at h
  refine ⟨h, by simp [h], fun i => by simp [h], ?_⟩
  rw [consumeLoop_eq_map, consumeLoop_eq_map deliveries, consumeLoop_eq_map more]
  simp

/-! ## Theorems: `Listen` -/

theorem bindTopics_all_succeed (b : Broker) (queue : String) :
    ∀ (topics : List String) (k : Nat) (requests : List AmqpRequest),
      (∀ j s, topics[j]? = some s → b.queueBind (k + j) (bindArgs queue s) = none) →
      bindTopics b queue topics k requests
        = (none, requests ++ topics.map (fun s => .queueBind (bindArgs queue s))) := by
  intro topics
  induction topics with
  | nil => intro k requests _; simp [bindTopics]
  | cons t rest ih =>
    intro k requests hok
    have h0 : b.queueBind k (bindArgs queue t) = none := by
      simpa using hok 0 t (by simp)
    have hrest : ∀ j s, rest[j]? = some s →
        b.queueBind (k + 1 + j) (bindArgs queue s) = none := by
      intro j s hj
      have := hok (j + 1) s (by simpa using hj)
      rwa [show k + (j + 1) = k + 1 + j by omega] at this
    simp only [bindTopics, h0, ih (k + 1) _ hrest, List.map_cons, List.append_assoc,
      List.singleton_append]

theorem bindTopics_first_failure (b : Broker) (queue : String) (err : GoError) :
    ∀ (topics : List String) (i k : Nat) (requests : List AmqpRequest) (t : String),
      (∀ j s, j < i → topics[j]? = some s → b.queueBind (k + j) (bindArgs queue s) = none) →
      topics[i]? = some t → b.queueBind (k + i) (bindArgs queue t) = some err →
      bindTopics b queue topics k requests
        = (some err,
            requests ++ (topics.take (i + 1)).map (fun s => .queueBind (bindArgs queue s))) := by
  intro topics
  induction topics with
  | nil => intro i k requests t _ hi _; simp at hi
  | cons t0 rest ih =>
    intro i k requests t hok hi hfail
    cases i with
    | zero =>
      have ht : t0 = t := by simpa using hi
      subst ht
      simp only [bindTopics, Nat.add_zero] at hfail ⊢
      simp [hfail]
    | succ i =>
      have h0 : b.queueBind k (bindArgs queue t0) = none := by
        simpa using hok 0 t0 (by omega) (by simp)
      have hrest : ∀ j s, j < i → rest[j]? = some s →
          b.queueBind (k + 1 + j) (bindArgs queue s) = none := by
        intro j s hj hs
        have := hok (j + 1) s (by omega) (by simpa using hs)
        rwa [show k + (j + 1) = k + 1 + j by omega] at this
      have hi2 : rest[i]? = some t := by simpa using hi
      have hfail2 : b.queueBind (k + 1 + i) (bindArgs queue t) = some err := by
        rwa [show k + (i + 1) = k + 1 + i by omega] at hfail
      simp only [bindTopics, h0, ih i (k + 1) _ t hrest hi2 hfail2, List.take_succ_cons,
        List.map_cons, List.append_assoc, List.singleton_append]

/-- C8. In `Listen`, when the channel opens, the queue is declared and the bind for
`topics[i]` is the first to fail, the requests issued are exactly: channel open, queue
declare, the binds for `topics[0..i]` in list order, and the deferred channel close.
`Listen` returns that bind's error; there is no bind for a later topic, no unbind and no
consume registration, and no handler is started. -/
theorem listen_first_bind_failure (b : Broker) (topics : List String) (i : Nat)
    (t : String) (err : GoError)
    (hch : b.channel = none)
    (hq : (declareRandomQueue b).2.2 = none)
    (hok : ∀ j s, j < i → topics[j]? = some s →
      b.queueBind j ⟨(declareRandomQueue b).2.1.Name, s, "logs_topic", false, none⟩ = none)
    (hi : topics[i]? = some t)
    (hfail :
      b.queueBind i ⟨(declareRandomQueue b).2.1.Name, t, "logs_topic", false, none⟩ = some err) :
    Listen b topics =
      ⟨.returned (some err),
        [.channelOpen, .queueDeclare ⟨"", false, false, true, false, none⟩]
          ++ (topics.take (i + 1)).map (fun s =>
              .queueBind ⟨(declareRandomQueue b).2.1.Name, s, "logs_topic", false, none⟩)
          ++ [.channelClose],
        []⟩ ∧
    (∀ a, AmqpRequest.queueUnbind a ∉ (Listen b topics).requests) ∧
    (∀ a, AmqpRequest.consume a ∉ (Listen b topics).requests) ∧
    (∀ s, s ∈ topics.drop (i + 1) → s ∉ topics.take (i + 1) →
      ∀ a, a.key = s → AmqpRequest.queueBind a ∉ (Listen b topics).requests) := by
  have hbind := bindTopics_first_failure b (declareRandomQueue b).2.1.Name err topics i 0
    [.channelOpen, (declareRandomQueue b).1] t
    (by simpa [bindArgs] using hok) hi (by simpa [bindArgs] using hfail)
  have hrun : Listen b topics =
      ⟨.returned (some err),
        [.channelOpen, .queueDeclare ⟨"", false, false, true, false, none⟩]
          ++ (topics.take (i + 1)).map (fun s =>
              .queueBind ⟨(declareRandomQueue b).2.1.Name, s, "logs_topic", false, none⟩)
          ++ [.channelClose],
        []⟩ := by
    unfold Listen
    simp only [hch]
    rw [show declareRandomQueue b
      = ((declareRandomQueue b).1, (declareRandomQueue b).2.1, (declareRandomQueue b).2.2)
      from rfl]
    simp only [hq, hbind]
    rfl
  refine ⟨hrun, ?_, ?_, ?_⟩
  · intro a
    rw [hrun]
    simp [-List.map_take]
  · intro a
    rw [hrun]
    simp [-List.map_take]
  · intro s _ hnot a ha
    rw [hrun]
    simp only [List.mem_append, List.mem_map, List.mem_cons, List.mem_singleton, not_or]
    refine ⟨⟨by simp, ?_⟩, by simp⟩
    rintro ⟨s', hs', heq⟩
    have : s' = s := by
      cases heq
      exact ha
    exact hnot (this ▸ hs')

theorem listen_first_bind_failure_witness :
    Listen (brokerRefusingKey "log.WARNING" []) ["log.INFO", "log.WARNING", "log.ERROR"] =
      ⟨.returned (some ⟨"bind refused"⟩),
        [.channelOpen, .queueDeclare ⟨"", false, false, true, false, none⟩,
          .queueBind ⟨"amq.gen-1", "log.INFO", "logs_topic", false, none⟩,
          .queueBind ⟨"amq.gen-1", "log.WARNING", "logs_topic", false, none⟩,
          .channelClose],
        []⟩ :=
  (listen_first_bind_failure (brokerRefusingKey "log.WARNING" [])
    ["log.INFO", "log.WARNING", "log.ERROR"] 1 "log.WARNING" ⟨"bind refused"⟩ rfl rfl
    (by
      intro j s hj hs
      have hj0 : j = 0 := by omega
      subst hj0
      have hs0 : s = "log.INFO" := by simpa using hs.symm
      subst hs0
      decide)
    rfl (by decide)).1

/-- C9. For every topics list, when the channel opens, the queue is declared and every
bind succeeds, `Listen` issues exactly `len(topics)` bind requests, the `i`-th binding the
name of the queue just declared to the routing key `topics[i]` on the exchange
`logs_topic`; all of them come after the queue declaration and before the consume
registration. -/
theorem listen_binds_every_topic (b : Broker) (topics : List String)
    (hch : b.channel = none)
    (hq : (declareRandomQueue b).2.2 = none)
    (hok : ∀ j s, topics[j]? = some s →
      b.queueBind j ⟨(declareRandomQueue b).2.1.Name, s, "logs_topic", false, none⟩ = none) :
    (Listen b topics).requests =
      [.channelOpen, .queueDeclare ⟨"", false, false, true, false, none⟩]
        ++ topics.map (fun s =>
            .queueBind ⟨(declareRandomQueue b).2.1.Name, s, "logs_topic", false, none⟩)
        ++ .consume ⟨(declareRandomQueue b).2.1.Name, "", true, false, false, false, none⟩
          :: (match b.consume (consumeArgs (declareRandomQueue b).2.1.Name) with
              | .ok _ => []
              | .error _ => [.channelClose]) ∧
    ((Listen b topics).requests.filter (fun r =>
        match r with
        | .queueBind _ => true
        | _ => false)).length = topics.length := by
  have hbind := bindTopics_all_succeed b (declareRandomQueue b).2.1.Name topics 0
    [.channelOpen, (declareRandomQueue b).1] (by simpa [bindArgs] using hok)
  have hrun : (Listen b topics).requests =
      [.channelOpen, .queueDeclare ⟨"", false, false, true, false, none⟩]
        ++ topics.map (fun s =>
            .queueBind ⟨(declareRandomQueue b).2.1.Name, s, "logs_topic", false, none⟩)
        ++ .consume ⟨(declareRandomQueue b).2.1.Name, "", true, false, false, false, none⟩
          :: (match b.consume (consumeArgs (declareRandomQueue b).2.1.Name) with
              | .ok _ => []
              | .error _ => [.channelClose]) := by
    unfold Listen
    simp only [hch]
    rw [show declareRandomQueue b
      = ((declareRandomQueue b).1, (declareRandomQueue b).2.1, (declareRandomQueue b).2.2)
      from rfl]
    simp only [hq, hbind]
    cases b.consume (consumeArgs (declareRandomQueue b).2.1.Name) with
    | ok messages => simp [consumeArgs, bindArgs, declareRandomQueue]
    | error e => simp [consumeArgs, bindArgs, declareRandomQueue]
  refine ⟨hrun, ?_⟩
  rw [hrun]
  cases b.consume (consumeArgs (declareRandomQueue b).2.1.Name) with
  | ok messages => simp [List.filter_append, List.filter_map, Function.comp_def]
  | error e => simp [List.filter_append, List.filter_map, Function.comp_def]

theorem listen_binds_every_topic_witness :
    (Listen (brokerRefusingKey "log.DEBUG" []) ["log.INFO", "log.WARNING", "log.ERROR"]).requests =
      [.channelOpen, .queueDeclare ⟨"", false, false, true, false, none⟩,
        .queueBind ⟨"amq.gen-1", "log.INFO", "logs_topic", false, none⟩,
        .queueBind ⟨"amq.gen-1", "log.WARNING", "logs_topic", false, none⟩,
        .queueBind ⟨"amq.gen-1", "log.ERROR", "logs_topic", false, none⟩,
        .consume ⟨"amq.gen-1", "", true, false, false, false, none⟩] :=
  (listen_binds_every_topic (brokerRefusingKey "log.DEBUG" [])
    ["log.INFO", "log.WARNING", "log.ERROR"] rfl rfl
    (by
      intro j s hs
      have hmem : s ∈ ["log.INFO", "log.WARNING", "log.ERROR"] := by
        obtain ⟨hj, hget⟩ := List.getElem?_eq_some.mp hs
        exact hget ▸ List.getElem_mem _
      simp only [List.mem_cons, List.mem_singleton, List.not_mem_nil, or_false] at hmem
      rcases hmem with h | h | h <;> subst h <;>
        simp [brokerRefusingKey])).1

/-! ## Theorems: decoding failures -/

theorem storeField_error (p : Payload) (f : PayloadField) (v : JSON) :
    (storeField p f v).2 ≠ some .invalidSyntax := by
  cases v <;> simp [storeField]

theorem decodeMembers_error (ms : List (List Char × JSON)) :
    ∀ st : Payload × Option UnmarshalError,
      st.2 ≠ some .invalidSyntax → (decodeMembers ms st).2 ≠ some .invalidSyntax := by
  induction ms with
  | nil => intro st h; simpa [decodeMembers] using h
  | cons m ms ih =>
    intro st h
    obtain ⟨key, v⟩ := m
    obtain ⟨p, saved⟩ := st
    simp only [decodeMembers]
    cases lookupField key with
    | none => exact ih _ h
    | some f =>
      simp only []
      apply ih
      cases saved with
      | some e => simpa [saveError] using h
      | none => simpa [saveError] using storeField_error p f v

theorem decodeValue_error (v : JSON) (p : Payload) :
    (decodeValue v p).2 ≠ some .invalidSyntax := by
  cases v <;> simp [decodeValue]
  exact decodeMembers_error _ _ (by simp)

theorem jsonUnmarshal_invalidSyntax (body : String) (v : Payload)
    (h : (jsonUnmarshal body v).2 = some .invalidSyntax) : (jsonUnmarshal body v).1 = v := by
  unfold jsonUnmarshal at h ⊢
  cases hp : parseJSON body.data with
  | none => rfl
  | some j =>
    rw [hp] at h
    exact absurd h (decodeValue_error j v)

/-- C5 (refuted as stated). Decoding the body `{"name":"auth","data":1}` reports an error,
and the payload the consume loop hands to the dispatcher is `{Name: "auth", Data: ""}`,
not the zero value. -/
theorem consumeLoop_type_error_keeps_fields :
    (jsonUnmarshal "\x7b\"name\":\"auth\",\"data\":1\x7d" Payload.zero).2
      = some (.typeMismatch "number") ∧
    consumeLoop [⟨"\x7b\"name\":\"auth\",\"data\":1\x7d"⟩] [] = [⟨"auth", ""⟩] ∧
    (⟨"auth", ""⟩ : Payload) ≠ Payload.zero := by
  decide

/-- C5 (amended). For every message body on which JSON decoding reports a syntax error,
the payload the consume loop hands to the dispatcher is the zero-value `Payload`. -/
theorem consumeLoop_syntax_error_zero_payload (body : String)
    (h : (jsonUnmarshal body Payload.zero).2 = some .invalidSyntax) :
    consumeLoop [⟨body⟩] [] = [Payload.zero] := by
  simp [consumeLoop, jsonUnmarshal_invalidSyntax body Payload.zero h]

theorem consumeLoop_syntax_error_zero_payload_witness :
    (jsonUnmarshal "not json" Payload.zero).2 = some .invalidSyntax ∧
    consumeLoop [⟨"not json"⟩] [] = [Payload.zero] :=
  ⟨by decide, consumeLoop_syntax_error_zero_payload "not json" (by decide)⟩

/-- C6 (refuted as stated). The body `not json` fails to decode, yet processing that
message makes one forwarding call to the log service, carrying the zero-value payload. -/
theorem processDelivery_malformed_is_forwarded :
    (jsonUnmarshal "not json" Payload.zero).2 ≠ none ∧
    forwardingCalls (processDelivery (worldAnswering 202) ⟨"not json"⟩) = [Payload.zero] := by
  decide

/-- C6 (amended). For every message body that fails to decode, with error `e`, processing
that message makes exactly one forwarding call, carrying the payload the failed decoding
left, unless that payload is named `"auth"`, in which case it makes none; when `e` is a
syntax error the one call carries the zero-value `Payload`. -/
theorem processDelivery_decode_failure (w : HttpWorld) (body : String)
    (h : (jsonUnmarshal body Payload.zero).2 ≠ none) :
    ∃ e, (jsonUnmarshal body Payload.zero).2 = some e ∧
      forwardingCalls (processDelivery w ⟨body⟩)
        = (if (jsonUnmarshal body Payload.zero).1.Name = "auth" then []
           else [(jsonUnmarshal body Payload.zero).1]) ∧
      (e = .invalidSyntax →
        forwardingCalls (processDelivery w ⟨body⟩) = [Payload.zero]) := by
  obtain ⟨e, he⟩ := Option.ne_none_iff_exists'.mp h
  have hcalls : forwardingCalls (processDelivery w ⟨body⟩)
      = (if (jsonUnmarshal body Payload.zero).1.Name = "auth" then []
         else [(jsonUnmarshal body Payload.zero).1]) := by
    simp [processDelivery, consumeLoop, forwardingCalls_handlePayload]
  refine ⟨e, he, hcalls, fun hs => ?_⟩
  subst hs
  rw [hcalls, jsonUnmarshal_invalidSyntax body Payload.zero he]
  decide

theorem processDelivery_decode_failure_witness :
    ∃ e, (jsonUnmarshal "\x7b\"name\":\"auth\",\"data\":1\x7d" Payload.zero).2 = some e ∧
      forwardingCalls (processDelivery (worldAnswering 202)
          ⟨"\x7b\"name\":\"auth\",\"data\":1\x7d"⟩)
        = (if (jsonUnmarshal "\x7b\"name\":\"auth\",\"data\":1\x7d" Payload.zero).1.Name
              = "auth" then []
           else [(jsonUnmarshal "\x7b\"name\":\"auth\",\"data\":1\x7d" Payload.zero).1]) ∧
      (e = .invalidSyntax →
        forwardingCalls (processDelivery (worldAnswering 202)
          ⟨"\x7b\"name\":\"auth\",\"data\":1\x7d"⟩) = [Payload.zero]) :=
  processDelivery_decode_failure (worldAnswering 202)
    "\x7b\"name\":\"auth\",\"data\":1\x7d" (by decide)

/-! ## Theorems: the request `logEvent` builds -/

theorem hexVal_hexDigit : ∀ k : Fin 16, hexVal (hexDigit k.val) = some k.val := by
  decide

theorem hex4_low (n : Nat) (hn : n < 0x80) :
    hex4 '0' '0' (hexDigit (n / 16)) (hexDigit (n % 16)) = some n := by
  have h1 := hexVal_hexDigit ⟨n / 16, by omega⟩
  have h2 := hexVal_hexDigit ⟨n % 16, by omega⟩
  simp only at h1 h2
  have h0 : hexVal '0' = some 0 := by decide
  simp only [hex4, h0, h1, h2]
  congr 1
  omega

theorem unquoteLoop_plain (fuel : Nat) (c : Char) (tail s rest : List Char)
    (hq : c ≠ '"') (hb : c ≠ '\\') (hc : ¬ c.toNat < 0x20)
    (ht : unquoteLoop fuel tail = some (s, rest)) :
    unquoteLoop (fuel + 1) (c :: tail) = some (c :: s, rest) := by
  simp [unquoteLoop, unquoteOne, hq, hb, hc, ht]

theorem unquoteLoop_simple_escape (fuel : Nat) (e c : Char) (tail s rest : List Char)
    (hu : e ≠ 'u') (he : unescape e = some c)
    (ht : unquoteLoop fuel tail = some (s, rest)) :
    unquoteLoop (fuel + 1) ('\\' :: e :: tail) = some (c :: s, rest) := by
  simp [unquoteLoop, unquoteOne, hu, he, ht]

theorem unquoteLoop_u_escape (fuel : Nat) (h0 h1 h2 h3 : Char) (rr : Nat)
    (tail s rest : List Char)
    (hh : hex4 h0 h1 h2 h3 = some rr) (hs : isSurrogate rr = false)
    (ht : unquoteLoop fuel tail = some (s, rest)) :
    unquoteLoop (fuel + 1) ('\\' :: 'u' :: h0 :: h1 :: h2 :: h3 :: tail)
      = some (Char.ofNat rr :: s, rest) := by
  simp [unquoteLoop, unquoteOne, hh, hs, ht]

theorem unquoteLoop_escapeChar (fuel : Nat) (c : Char) (tail s rest : List Char)
    (ht : unquoteLoop fuel tail = some (s, rest)) :
    unquoteLoop (fuel + 1) (escapeChar c ++ tail) = some (c :: s, rest) := by
  unfold escapeChar
  by_cases hlow : c.toNat < 0x80
  · simp only [hlow, if_true]
    by_cases hsafe : htmlSafe c = true
    · simp only [hsafe, if_true, List.singleton_append]
      simp only [htmlSafe, Bool.and_eq_true, decide_eq_true_eq, bne_iff_ne, ne_eq] at hsafe
      obtain ⟨⟨⟨⟨⟨⟨hge, _⟩, hq⟩, hb⟩, _⟩, _⟩, _⟩ := hsafe
      exact unquoteLoop_plain fuel c tail s rest hq hb (by omega) ht
    · simp only [hsafe, Bool.false_eq_true, if_false]
      by_cases h1 : c = '\\' ∨ c = '"'
      · simp only [h1, if_true]
        rcases h1 with h | h <;> subst h <;>
          exact unquoteLoop_simple_escape fuel _ _ tail s rest (by decide) (by decide) ht
      · simp only [h1, if_false]
        by_cases h2 : c = Char.ofNat 8
        · subst h2
          exact unquoteLoop_simple_escape fuel 'b' _ tail s rest (by decide) (by decide) ht
        simp only [h2, if_false]
        by_cases h3 : c = Char.ofNat 12
        · subst h3
          exact unquoteLoop_simple_escape fuel 'f' _ tail s rest (by decide) (by decide) ht
        simp only [h3, if_false]
        by_cases h4 : c = '\n'
        · subst h4
          exact unquoteLoop_simple_escape fuel 'n' _ tail s rest (by decide) (by decide) ht
        simp only [h4, if_false]
        by_cases h5 : c = '\r'
        · subst h5
          exact unquoteLoop_simple_escape fuel 'r' _ tail s rest (by decide) (by decide) ht
        simp only [h5, if_false]
        by_cases h6 : c = '\t'
        · subst h6
          exact unquoteLoop_simple_escape fuel 't' _ tail s rest (by decide) (by decide) ht
        simp only [h6, if_false]
        have := unquoteLoop_u_escape fuel '0' '0' (hexDigit (c.toNat / 16))
          (hexDigit (c.toNat % 16)) c.toNat tail s rest (hex4_low c.toNat hlow)
          (by simp [isSurrogate]; omega) ht
        simpa [Char.ofNat_toNat] using this
  · simp only [hlow, if_false]
    by_cases h1 : c = Char.ofNat 0x2028 ∨ c = Char.ofNat 0x2029
    · simp only [h1, if_true]
      rcases h1 with h | h <;> subst h
      · exact unquoteLoop_u_escape fuel '2' '0' '2' '8' 0x2028 tail s rest (by decide)
          (by decide) ht
      · exact unquoteLoop_u_escape fuel '2' '0' '2' '9' 0x2029 tail s rest (by decide)
          (by decide) ht
    · simp only [h1, if_false, List.singleton_append]
      refine unquoteLoop_plain fuel c tail s rest ?_ ?_ (by omega) ht
      · rintro rfl
        exact hlow (by decide)
      · rintro rfl
        exact hlow (by decide)

theorem unquoteLoop_escape (s : List Char) :
    ∀ (fuel : Nat) (rest : List Char),
      unquoteLoop (fuel + s.length + 1) (s.flatMap escapeChar ++ '"' :: rest) = some (s, rest) := by
  induction s with
  | nil => intro fuel rest; simp [unquoteLoop]
  | cons c s ih =>
    intro fuel rest
    have h := unquoteLoop_escapeChar (fuel + s.length + 1) c
      (s.flatMap escapeChar ++ '"' :: rest) s rest (ih fuel rest)
    simpa [List.flatMap_cons, Nat.add_assoc] using h

theorem length_escapeChar (c : Char) : 1 ≤ (escapeChar c).length := by
  unfold escapeChar
  repeat' split
  all_goals simp

theorem length_flatMap_escapeChar (s : List Char) :
    s.length ≤ (s.flatMap escapeChar).length := by
  induction s with
  | nil => simp
  | cons c s ih =>
    have := length_escapeChar c
    simp only [List.flatMap_cons, List.length_cons, List.length_append]
    omega

theorem unquote_appendString (s rest : List Char) :
    unquote (s.flatMap escapeChar ++ '"' :: rest) = some (s, rest) := by
  unfold unquote
  have hlen := length_flatMap_escapeChar s
  obtain ⟨k, hk⟩ : ∃ k, (s.flatMap escapeChar ++ '"' :: rest).length = k + s.length + 1 :=
    ⟨(s.flatMap escapeChar).length - s.length + rest.length, by
      simp only [List.length_append, List.length_cons]; omega⟩
  rw [hk]
  exact unquoteLoop_escape s k rest

theorem parseValue_string (fuel depth : Nat) (s rest : List Char) :
    parseValue (fuel + 1) depth ('"' :: (s.flatMap escapeChar ++ '"' :: rest))
      = some (.string s, rest) := by
  simp [parseValue, unquote_appendString]

theorem unquote_key_name (rest : List Char) :
    unquote ('n' :: 'a' :: 'm' :: 'e' :: '"' :: rest) = some ("name".data, rest) := by
  have h : ("name".data).flatMap escapeChar = "name".data := by decide
  have := unquote_appendString "name".data rest
  rwa [h] at this

theorem unquote_key_data (rest : List Char) :
    unquote ('d' :: 'a' :: 't' :: 'a' :: '"' :: rest) = some ("data".data, rest) := by
  have h : ("data".data).flatMap escapeChar = "data".data := by decide
  have := unquote_appendString "data".data rest
  rwa [h] at this

theorem jsonMarshalIndent_data (entry : Payload) :
    (jsonMarshalIndent entry "" "\t").data
      = '{' :: '\n' :: '\t' :: '"' :: 'n' :: 'a' :: 'm' :: 'e' :: '"' :: ':' :: ' ' :: '"' ::
          (entry.Name.data.flatMap escapeChar ++ '"' :: ',' :: '\n' :: '\t' :: '"' :: 'd' :: 'a'
            :: 't' :: 'a' :: '"' :: ':' :: ' ' :: '"' ::
            (entry.Data.data.flatMap escapeChar ++ '"' :: '\n' :: '}' :: [])) := by
  simp [jsonMarshalIndent, appendString]

theorem parseMembers_data (fuel depth : Nat) (d rest : List Char) :
    parseMembers (fuel + 2) depth
      ('"' :: 'd' :: 'a' :: 't' :: 'a' :: '"' :: ':' :: ' ' :: '"' ::
        (d.flatMap escapeChar ++ '"' :: '\n' :: '}' :: rest))
      = some ([("data".data, .string d)], rest) := by
  rw [parseMembers]
  simp [unquote_key_data, skipSpace, isSpace, parseValue_string]

theorem parseMembers_name_data (fuel depth : Nat) (n d rest : List Char) :
    parseMembers (fuel + 3) depth
      ('"' :: 'n' :: 'a' :: 'm' :: 'e' :: '"' :: ':' :: ' ' :: '"' ::
        (n.flatMap escapeChar ++ '"' :: ',' :: '\n' :: '\t' :: '"' :: 'd' :: 'a'
          :: 't' :: 'a' :: '"' :: ':' :: ' ' :: '"' ::
          (d.flatMap escapeChar ++ '"' :: '\n' :: '}' :: rest)))
      = some ([("name".data, .string n), ("data".data, .string d)], rest) := by
  rw [parseMembers]
  simp [unquote_key_name, skipSpace, isSpace, parseValue_string, parseMembers_data]

theorem parseJSON_jsonMarshalIndent (entry : Payload) :
    parseJSON (jsonMarshalIndent entry "" "\t").data
      = some (.object [("name".data, .string entry.Name.data),
          ("data".data, .string entry.Data.data)]) := by
  rw [jsonMarshalIndent_data]
  unfold parseJSON
  generalize hlen : List.length _ = len
  have hpos : 4 ≤ 2 * len + 2 := by
    have : 1 ≤ len := by rw [← hlen]; simp
    omega
  obtain ⟨k, hk⟩ : ∃ k, 2 * len + 2 = k + 4 := ⟨2 * len + 2 - 4, by omega⟩
  rw [hk]
  simp [parseValue, skipSpace, isSpace, maxNestingDepth, parseMembers_name_data]

/-- Decoding what `json.MarshalIndent` wrote gives the payload back, whatever the target
held before. -/
theorem jsonUnmarshal_jsonMarshalIndent (entry v : Payload) :
    jsonUnmarshal (jsonMarshalIndent entry "" "\t") v = (entry, none) := by
  unfold jsonUnmarshal
  rw [parseJSON_jsonMarshalIndent]
  simp [decodeValue, decodeMembers, lookupField, storeField, setField, saveError]

/-- C10. For every payload `p`, when `http.NewRequest` accepts the method and URL,
`logEvent` hands exactly one request to the HTTP client: a `POST` to
`http://logger-service/log` whose only header is `Content-Type: application/json` and
whose body is `json.MarshalIndent(p, "", "\t")`; decoding that body as a `Payload` gives
exactly `p` and no error. -/
theorem logEvent_request_round_trip (w : HttpWorld) (p : Payload)
    (hnew : w.newRequestError "POST" "http://logger-service/log" = none) :
    ∃ request, requestsSent (logEvent w p).2 = [request] ∧
      request.method = "POST" ∧
      request.url = "http://logger-service/log" ∧
      request.header = [("Content-Type", "application/json")] ∧
      request.body = jsonMarshalIndent p "" "\t" ∧
      jsonUnmarshal request.body Payload.zero = (p, none) := by
  refine ⟨⟨"POST", "http://logger-service/log", [("Content-Type", "application/json")],
    jsonMarshalIndent p "" "\t"⟩, ?_, rfl, rfl, rfl, rfl, jsonUnmarshal_jsonMarshalIndent p _⟩
  unfold logEvent
  simp only [httpNewRequest, hnew, headerSet]
  cases w.roundTrip _ with
  | error e => simp [requestsSent]
  | ok response =>
    simp only []
    split <;> simp [requestsSent]

theorem logEvent_request_round_trip_witness :
    ∃ request, requestsSent (logEvent (worldAnswering 202) ⟨"log", "a \"quoted\" <line>\n"⟩).2
        = [request] ∧
      request.method = "POST" ∧
      request.url = "http://logger-service/log" ∧
      request.header = [("Content-Type", "application/json")] ∧
      request.body = jsonMarshalIndent ⟨"log", "a \"quoted\" <line>\n"⟩ "" "\t" ∧
      jsonUnmarshal request.body Payload.zero = (⟨"log", "a \"quoted\" <line>\n"⟩, none) :=
  logEvent_request_round_trip (worldAnswering 202) ⟨"log", "a \"quoted\" <line>\n"⟩ rfl

/-! ## Theorems: topology declaration -/

/-- C11. `declareExchange` issues one exchange-declare request, with name `logs_topic`,
kind `topic`, durable, not auto-deleted, not internal, waiting for the answer and without
arguments, and returns the answer to that request as it is (nil on success). -/
theorem declareExchange_request (b : Broker) :
    ∃ a, declareExchange b = (.exchangeDeclare a, b.exchangeDeclare a) ∧
      a.name = "logs_topic" ∧ a.kind = "topic" ∧ a.durable = true ∧ a.autoDelete = false ∧
      a.internal = false ∧ a.noWait = false ∧ a.args = none :=
  ⟨⟨"logs_topic", "topic", true, false, false, false, none⟩, rfl, rfl, rfl, rfl, rfl, rfl, rfl,
    rfl⟩

/-- C12. `declareRandomQueue` issues one queue-declare request, with the empty name,
not durable, not auto-deleted, exclusive, waiting for the answer and without arguments,
and returns the queue descriptor and the error of the answer as they are. -/
theorem declareRandomQueue_request (b : Broker) :
    ∃ a, declareRandomQueue b = (.queueDeclare a, (b.queueDeclare a).1, (b.queueDeclare a).2) ∧
      a.name = "" ∧ a.durable = false ∧ a.autoDelete = false ∧ a.exclusive = true ∧
      a.noWait = false ∧ a.args = none :=
  ⟨⟨"", false, false, true, false, none⟩, rfl, rfl, rfl, rfl, rfl, rfl, rfl⟩

theorem find_append_self (table : List ExchangeDeclareArgs) (a : ExchangeDeclareArgs)
    (h : table.find? (fun x => x.name == a.name) = none) :
    (table ++ [a]).find? (fun x => x.name == a.name) = some a := by
  simp [List.find?_append, h]

theorem sameExchange_self (a : ExchangeDeclareArgs) : sameExchange a a = true := by
  simp [sameExchange]

/-- C13. Against a broker that accepts a redeclaration with equal properties and refuses
one with other properties, and whose exchanges named `logs_topic` (if any) have the
properties `declareExchange` asks for: two calls of `declareExchange`, on the channels
`ch1` and `ch2` (equal or not), both succeed, and the table of exchanges after the second
call is the one after the first. The request does not depend on the channel. -/
theorem declareExchange_idempotent (table : List ExchangeDeclareArgs) (ch1 ch2 : Broker)
    (hfree : ∀ x, x ∈ table → x.name = "logs_topic" →
      sameExchange x ⟨"logs_topic", "topic", true, false, false, false, none⟩ = true) :
    (declareExchangeOn table ch1).2 = none ∧
    (declareExchangeOn (declareExchangeOn table ch1).1 ch2).2 = none ∧
    (declareExchangeOn (declareExchangeOn table ch1).1 ch2).1 = (declareExchangeOn table ch1).1 ∧
    (declareExchange ch1).1 = (declareExchange ch2).1 := by
  have hstep : ∀ (t : List ExchangeDeclareArgs) (ch : Broker),
      declareExchangeOn t ch
        = exchangeTableDeclare t ⟨"logs_topic", "topic", true, false, false, false, none⟩ := by
    intro t ch
    rfl
  have hkey : ∃ t1,
      exchangeTableDeclare table ⟨"logs_topic", "topic", true, false, false, false, none⟩
        = (t1, none) ∧
      exchangeTableDeclare t1 ⟨"logs_topic", "topic", true, false, false, false, none⟩
        = (t1, none) := by
    cases hf : table.find? (fun x => x.name == "logs_topic") with
    | none =>
      refine ⟨table ++ [⟨"logs_topic", "topic", true, false, false, false, none⟩], ?_, ?_⟩
      · simp [exchangeTableDeclare, hf]
      · have h2 := find_append_self table
          ⟨"logs_topic", "topic", true, false, false, false, none⟩ hf
        simp only [exchangeTableDeclare, h2, sameExchange_self, if_true]
    | some x =>
      have hx : sameExchange x ⟨"logs_topic", "topic", true, false, false, false, none⟩
          = true := by
        refine hfree x (List.mem_of_find?_eq_some hf) ?_
        simpa using List.find?_some hf
      refine ⟨table, ?_, ?_⟩ <;> simp [exchangeTableDeclare, hf, hx]
  obtain ⟨t1, h1, h2⟩ := hkey
  rw [hstep, h1, hstep, h2]
  exact ⟨rfl, rfl, rfl, rfl⟩

theorem declareExchange_idempotent_witness :
    (declareExchangeOn [] (brokerRefusingKey "" [])).2 = none ∧
    (declareExchangeOn (declareExchangeOn [] (brokerRefusingKey "" [])).1
      (brokerRefusingKey "log.INFO" [])).2 = none ∧
    (declareExchangeOn (declareExchangeOn [] (brokerRefusingKey "" [])).1
      (brokerRefusingKey "log.INFO" [])).1
      = (declareExchangeOn [] (brokerRefusingKey "" [])).1 ∧
    (declareExchange (brokerRefusingKey "" [])).1
      = (declareExchange (brokerRefusingKey "log.INFO" [])).1 :=
  declareExchange_idempotent [] (brokerRefusingKey "" []) (brokerRefusingKey "log.INFO" [])
    (by simp)

/-! ## Theorems: `NewConsumer` and the channels -/

theorem bindTopics_requests (b : Broker) (queue : String) :
    ∀ (topics : List String) (k : Nat) (requests : List AmqpRequest),
      ∃ bound : List String,
        (bindTopics b queue topics k requests).2
          = requests ++ bound.map (fun s => .queueBind (bindArgs queue s)) := by
  intro topics
  induction topics with
  | nil => intro k requests; exact ⟨[], by simp [bindTopics]⟩
  | cons t rest ih =>
    intro k requests
    simp only [bindTopics]
    cases b.queueBind k (bindArgs queue t) with
    | some err => exact ⟨[t], by simp⟩
    | none =>
      obtain ⟨bound, hb⟩ := ih (k + 1) (requests ++ [.queueBind (bindArgs queue t)])
      exact ⟨t :: bound, by simp [hb]⟩

/-- The channel `Listen` opened is closed on every path on which `Listen` returns: the
last request of such a run is the deferred `ch.Close()`. -/
theorem listen_returned_closes_channel (b : Broker) (topics : List String)
    (err : Option GoError) (hch : b.channel = none)
    (hret : (Listen b topics).outcome = .returned err) :
    (Listen b topics).requests.getLast? = some .channelClose := by
  unfold Listen at hret ⊢
  simp only [hch] at hret ⊢
  rw [show declareRandomQueue b
    = ((declareRandomQueue b).1, (declareRandomQueue b).2.1, (declareRandomQueue b).2.2)
    from rfl] at hret ⊢
  simp only at hret ⊢
  cases hq : (declareRandomQueue b).2.2 with
  | some e => simp
  | none =>
    simp only [hq] at hret ⊢
    cases hb : bindTopics b (declareRandomQueue b).2.1.Name topics 0
        [.channelOpen, (declareRandomQueue b).1] with
    | mk e requests =>
      simp only [hb] at hret ⊢
      cases e with
      | some e => simp
      | none =>
        simp only at hret ⊢
        cases hc : b.consume (consumeArgs (declareRandomQueue b).2.1.Name) with
        | error e => simp
        | ok messages => simp [hc] at hret

/-- C14 (the code at the failing input). `NewConsumer` on a broker that opens the channel
and accepts the declaration issues a channel open and the exchange declaration and never
closes that channel; the same holds when the declaration is refused. -/
theorem newConsumer_leaves_channel_open :
    (NewConsumer (brokerRefusingKey "" []) ⟨1⟩).err = none ∧
    (NewConsumer (brokerRefusingKey "" []) ⟨1⟩).requests =
      [.channelOpen,
        .exchangeDeclare ⟨"logs_topic", "topic", true, false, false, false, none⟩] ∧
    AmqpRequest.channelClose ∉ (NewConsumer (brokerRefusingKey "" []) ⟨1⟩).requests ∧
    (NewConsumer (channelOn fanoutTable (brokerRefusingKey "" [])) ⟨1⟩).err ≠ none ∧
    AmqpRequest.channelClose ∉
      (NewConsumer (channelOn fanoutTable (brokerRefusingKey "" [])) ⟨1⟩).requests := by
  decide

/-- C17. `NewConsumer(conn)` returns the zero `Consumer` and the error when opening the
channel fails or when the exchange declaration fails, and otherwise the consumer holding
`conn` with the empty queue name and the nil error; its error is non-nil exactly when one
of the two steps fails. -/
theorem newConsumer_result (b : Broker) (conn : Connection) :
    (∀ e, b.channel = some e →
      (NewConsumer b conn).consumer = Consumer.zero ∧ (NewConsumer b conn).err = some e) ∧
    (∀ e, b.channel = none →
      b.exchangeDeclare ⟨"logs_topic", "topic", true, false, false, false, none⟩ = some e →
      (NewConsumer b conn).consumer = Consumer.zero ∧ (NewConsumer b conn).err = some e) ∧
    (b.channel = none →
      b.exchangeDeclare ⟨"logs_topic", "topic", true, false, false, false, none⟩ = none →
      (NewConsumer b conn).consumer = ⟨some conn, ""⟩ ∧ (NewConsumer b conn).err = none) ∧
    ((NewConsumer b conn).err ≠ none ↔
      (b.channel ≠ none ∨
        (b.channel = none ∧
          b.exchangeDeclare ⟨"logs_topic", "topic", true, false, false, false, none⟩
            ≠ none))) := by
  unfold NewConsumer Consumer.setup declareExchange
  cases hch : b.channel with
  | some e0 => simp
  | none =>
    cases hd : b.exchangeDeclare ⟨"logs_topic", "topic", true, false, false, false, none⟩ with
    | some e1 => simp [hd]
    | none => simp [hd]

/-! ## Theorems: the consume registration -/

/-- The outcome and the requests of a run of `Listen`, by the step at which it ends. -/
theorem listen_requests_shape (b : Broker) (topics : List String) :
    ∃ bound : List String,
      ((∃ e, (Listen b topics).outcome = .returned (some e)) ∧
        ((Listen b topics).requests = [.channelOpen] ∨
         (Listen b topics).requests = [.channelOpen, (declareRandomQueue b).1, .channelClose] ∨
         (Listen b topics).requests
          = [.channelOpen, (declareRandomQueue b).1]
            ++ bound.map (fun s => .queueBind (bindArgs (declareRandomQueue b).2.1.Name s))
            ++ [.channelClose] ∨
         (Listen b topics).requests
          = [.channelOpen, (declareRandomQueue b).1]
            ++ bound.map (fun s => .queueBind (bindArgs (declareRandomQueue b).2.1.Name s))
            ++ [.consume (consumeArgs (declareRandomQueue b).2.1.Name), .channelClose])) ∨
      ((Listen b topics).outcome = .blocked ∧
        (Listen b topics).requests
          = [.channelOpen, (declareRandomQueue b).1]
            ++ bound.map (fun s => .queueBind (bindArgs (declareRandomQueue b).2.1.Name s))
            ++ [.consume (consumeArgs (declareRandomQueue b).2.1.Name)]) := by
  obtain ⟨bound, hb⟩ := bindTopics_requests b (declareRandomQueue b).2.1.Name topics 0
    [.channelOpen, (declareRandomQueue b).1]
  refine ⟨bound, ?_⟩
  unfold Listen
  cases hch : b.channel with
  | some e => simp
  | none =>
    simp only []
    rw [show declareRandomQueue b
      = ((declareRandomQueue b).1, (declareRandomQueue b).2.1, (declareRandomQueue b).2.2)
      from rfl]
    simp only []
    cases hq : (declareRandomQueue b).2.2 with
    | some e => simp
    | none =>
      simp only []
      cases hbt : bindTopics b (declareRandomQueue b).2.1.Name topics 0
          [.channelOpen, (declareRandomQueue b).1] with
      | mk e requests =>
        rw [hbt] at hb
        simp only at hb
        subst hb
        cases e with
        | some e => simp
        | none =>
          simp only []
          cases hc : b.consume (consumeArgs (declareRandomQueue b).2.1.Name) with
          | error e => simp
          | ok messages => simp

theorem consumeRequests_binds (queue : String) (bound : List String) :
    consumeRequests (bound.map (fun s => AmqpRequest.queueBind (bindArgs queue s))) = [] := by
  simp [consumeRequests, List.filterMap_map, Function.comp_def]

theorem consumeRequests_append (xs ys : List AmqpRequest) :
    consumeRequests (xs ++ ys) = consumeRequests xs ++ consumeRequests ys := by
  simp [consumeRequests, List.filterMap_append]

theorem isAcknowledgement_binds (queue : String) (bound : List String) (r : AmqpRequest)
    (hr : r ∈ bound.map (fun s => AmqpRequest.queueBind (bindArgs queue s))) :
    isAcknowledgement r = false := by
  obtain ⟨s, _, hs⟩ := List.mem_map.mp hr
  subst hs
  rfl

/-- On any broker `Listen` issues at most one consume registration, the one on the queue
just declared, and exactly that one when it ends blocked; neither `Listen` nor
`NewConsumer` issues an acknowledgement, a negative acknowledgement or a rejection. -/
theorem listen_requests_facts (b : Broker) (topics : List String)
    (conn : Connection) :
    (consumeRequests (Listen b topics).requests = [] ∨
      consumeRequests (Listen b topics).requests
        = [⟨(declareRandomQueue b).2.1.Name, "", true, false, false, false, none⟩]) ∧
    ((Listen b topics).outcome = .blocked →
      consumeRequests (Listen b topics).requests
        = [⟨(declareRandomQueue b).2.1.Name, "", true, false, false, false, none⟩]) ∧
    (∀ r, r ∈ (Listen b topics).requests → isAcknowledgement r = false) ∧
    (∀ r, r ∈ (NewConsumer b conn).requests → isAcknowledgement r = false) := by
  have hdecl : (declareRandomQueue b).1
      = .queueDeclare ⟨"", false, false, true, false, none⟩ := rfl
  have hc0 : consumeRequests [.channelOpen, (declareRandomQueue b).1] = [] := by
    rw [hdecl]; rfl
  obtain ⟨bound, hshape⟩ := listen_requests_shape b topics
  refine ⟨?_, ?_, ?_, ?_⟩
  · rcases hshape with ⟨_, h | h | h | h⟩ | ⟨_, h⟩
    · left; rw [h]; rfl
    · left; rw [h, hdecl]; rfl
    · left
      rw [h, consumeRequests_append, consumeRequests_append, hc0, consumeRequests_binds]
      rfl
    · right
      rw [h, consumeRequests_append, consumeRequests_append, hc0, consumeRequests_binds]
      rfl
    · right
      rw [h, consumeRequests_append, consumeRequests_append, hc0, consumeRequests_binds]
      rfl
  · intro hblocked
    rcases hshape with ⟨⟨e, he⟩, _⟩ | ⟨_, h⟩
    · rw [he] at hblocked
      cases hblocked
    · rw [h, consumeRequests_append, consumeRequests_append, hc0, consumeRequests_binds]
      rfl
  · intro r hr
    have hmem : ∀ x, x ∈ [AmqpRequest.channelOpen, (declareRandomQueue b).1]
          ++ bound.map (fun s => .queueBind (bindArgs (declareRandomQueue b).2.1.Name s)) →
        isAcknowledgement x = false := by
      intro x hx
      rcases List.mem_append.mp hx with hx | hx
      · simp only [List.mem_cons, List.mem_singleton, List.not_mem_nil, or_false] at hx
        rcases hx with hx | hx <;> subst hx <;> rfl
      · exact isAcknowledgement_binds _ _ _ hx
    rcases hshape with ⟨_, h | h | h | h⟩ | ⟨_, h⟩ <;> rw [h] at hr
    · simp only [List.mem_singleton] at hr
      subst hr; rfl
    · simp only [List.mem_cons, List.mem_singleton, List.not_mem_nil, or_false] at hr
      rcases hr with hr | hr | hr <;> subst hr <;> rfl
    · rcases List.mem_append.mp hr with hr | hr
      · exact hmem r hr
      · simp only [List.mem_singleton] at hr
        subst hr; rfl
    · rcases List.mem_append.mp hr with hr | hr
      · exact hmem r hr
      · simp only [List.mem_cons, List.mem_singleton, List.not_mem_nil, or_false] at hr
        rcases hr with hr | hr <;> subst hr <;> rfl
    · rcases List.mem_append.mp hr with hr | hr
      · exact hmem r hr
      · simp only [List.mem_singleton] at hr
        subst hr; rfl
  · intro r hr
    unfold NewConsumer Consumer.setup declareExchange at hr
    cases hch : b.channel with
    | some e =>
      simp [hch] at hr
      subst hr
      rfl
    | none =>
      simp only [hch] at hr
      cases hd : b.exchangeDeclare ⟨"logs_topic", "topic", true, false, false, false, none⟩ with
      | some e1 =>
        simp [hd] at hr
        rcases hr with hr | hr <;> subst hr <;> rfl
      | none =>
        simp [hd] at hr
        rcases hr with hr | hr <;> subst hr <;> rfl

/-- The run of `Listen` when the channel opens, the queue is declared and every bind
succeeds: the requests issued, and the outcome when the broker accepts the consumer. -/
theorem listen_requests_all_bound (b : Broker) (topics : List String)
    (hch : b.channel = none)
    (hq : (declareRandomQueue b).2.2 = none)
    (hok : ∀ j s, topics[j]? = some s →
      b.queueBind j (bindArgs (declareRandomQueue b).2.1.Name s) = none) :
    (Listen b topics).requests =
      [.channelOpen, (declareRandomQueue b).1]
        ++ topics.map (fun s => .queueBind (bindArgs (declareRandomQueue b).2.1.Name s))
        ++ .consume (consumeArgs (declareRandomQueue b).2.1.Name)
          :: (match b.consume (consumeArgs (declareRandomQueue b).2.1.Name) with
              | .ok _ => []
              | .error _ => [.channelClose]) ∧
    (∀ messages, b.consume (consumeArgs (declareRandomQueue b).2.1.Name) = .ok messages →
      (Listen b topics).outcome = .blocked ∧
      (Listen b topics).started = consumeLoop messages []) := by
  have hbind := bindTopics_all_succeed b (declareRandomQueue b).2.1.Name topics 0
    [.channelOpen, (declareRandomQueue b).1] (by simpa using hok)
  unfold Listen
  simp only [hch]
  rw [show declareRandomQueue b
    = ((declareRandomQueue b).1, (declareRandomQueue b).2.1, (declareRandomQueue b).2.2)
    from rfl]
  simp only [hq, hbind]
  cases hc : b.consume (consumeArgs (declareRandomQueue b).2.1.Name) with
  | ok messages => simp
  | error e => simp

/-- Every AMQP request in a run of `main` is a request of `NewConsumer` or of `Listen`. -/
theorem main_amqp_events (fuel : Nat) (dial : Nat → Except GoError Connection)
    (setupBroker listenBroker : Broker) (res : MainResult) (q : AmqpRequest)
    (hmain : main fuel dial setupBroker listenBroker = some res)
    (hq : MainEvent.amqp q ∈ res.events) :
    (∃ c, q ∈ (NewConsumer setupBroker c).requests) ∨
      q ∈ (Listen listenBroker ["log.INFO", "log.WARNING", "log.ERROR"]).requests := by
  unfold main at hmain
  cases hr : connect fuel dial with
  | none => simp [hr] at hmain
  | some r =>
    simp only [hr] at hmain
    cases herr : r.err with
    | some e =>
      simp only [herr] at hmain
      cases hmain
      simp at hq
    | none =>
      simp only [herr] at hmain
      cases hconn : r.connection with
      | none =>
        simp only [hconn] at hmain
        cases hmain
        simp at hq
      | some c =>
        simp only [hconn] at hmain
        cases hnew : (NewConsumer setupBroker c).err with
        | some e =>
          simp only [hnew] at hmain
          cases hmain
          simp at hq
          exact Or.inl ⟨c, hq⟩
        | none =>
          simp only [hnew] at hmain
          cases hl : (Listen listenBroker ["log.INFO", "log.WARNING", "log.ERROR"]).outcome with
          | blocked =>
            simp only [hl] at hmain
            cases hmain
            simp at hq
            rcases hq with hq | hq
            · exact Or.inl ⟨c, hq⟩
            · exact Or.inr hq
          | returned err =>
            simp only [hl] at hmain
            cases err with
            | some e =>
              simp only at hmain
              cases hmain
              simp at hq
              rcases hq with hq | hq
              · exact Or.inl ⟨c, hq⟩
              · exact Or.inr hq
            | none =>
              simp only at hmain
              cases hmain
              simp at hq
              rcases hq with hq | hq
              · exact Or.inl ⟨c, hq⟩
              · exact Or.inr hq

/-- C18. When the channel opens, the queue is declared and every bind succeeds, `Listen`
issues exactly one consume registration: on the name of the queue it just declared, with
the empty consumer tag, auto-acknowledge on, and exclusive, no-local and no-wait off; it
follows the binds, and when the broker accepts it `Listen` blocks with the consume loop
running on the deliveries. On every broker `Listen` issues at most that one registration,
and no request of `Listen`, of `NewConsumer` or of a whole run of `main` is an
acknowledgement, a negative acknowledgement or a rejection. -/
theorem listen_registers_one_consumer (b : Broker) (topics : List String)
    (hch : b.channel = none)
    (hq : (declareRandomQueue b).2.2 = none)
    (hok : ∀ j s, topics[j]? = some s →
      b.queueBind j ⟨(declareRandomQueue b).2.1.Name, s, "logs_topic", false, none⟩ = none) :
    consumeRequests (Listen b topics).requests
      = [⟨(declareRandomQueue b).2.1.Name, "", true, false, false, false, none⟩] ∧
    (Listen b topics).requests =
      [.channelOpen, .queueDeclare ⟨"", false, false, true, false, none⟩]
        ++ topics.map (fun s =>
            .queueBind ⟨(declareRandomQueue b).2.1.Name, s, "logs_topic", false, none⟩)
        ++ .consume ⟨(declareRandomQueue b).2.1.Name, "", true, false, false, false, none⟩
          :: (match b.consume
                ⟨(declareRandomQueue b).2.1.Name, "", true, false, false, false, none⟩ with
              | .ok _ => []
              | .error _ => [.channelClose]) ∧
    (∀ messages,
      b.consume ⟨(declareRandomQueue b).2.1.Name, "", true, false, false, false, none⟩
        = .ok messages →
      (Listen b topics).outcome = .blocked ∧
      (Listen b topics).started = consumeLoop messages []) ∧
    (∀ (b1 : Broker) (topics1 : List String),
      (consumeRequests (Listen b1 topics1).requests = [] ∨
        consumeRequests (Listen b1 topics1).requests
          = [⟨(declareRandomQueue b1).2.1.Name, "", true, false, false, false, none⟩]) ∧
      ∀ r, r ∈ (Listen b1 topics1).requests → isAcknowledgement r = false) ∧
    (∀ (b1 : Broker) (conn : Connection) (r : AmqpRequest),
      r ∈ (NewConsumer b1 conn).requests → isAcknowledgement r = false) ∧
    (∀ (fuel : Nat) (dial : Nat → Except GoError Connection) (setupBroker listenBroker : Broker)
        (res : MainResult) (r : AmqpRequest),
      main fuel dial setupBroker listenBroker = some res →
      MainEvent.amqp r ∈ res.events → isAcknowledgement r = false) := by
  obtain ⟨hreq, hblock⟩ := listen_requests_all_bound b topics hch hq
    (by simpa [bindArgs] using hok)
  have hdecl : (declareRandomQueue b).1
      = .queueDeclare ⟨"", false, false, true, false, none⟩ := rfl
  have hc0 : consumeRequests [.channelOpen, (declareRandomQueue b).1] = [] := by
    rw [hdecl]; rfl
  refine ⟨?_, ?_, ?_, ?_, ?_, ?_⟩
  · rw [hreq, consumeRequests_append, consumeRequests_append, hc0, consumeRequests_binds]
    cases b.consume (consumeArgs (declareRandomQueue b).2.1.Name) <;> rfl
  · rw [hreq]
    rfl
  · intro messages hm
    exact hblock messages hm
  · intro b1 topics1
    exact ⟨(listen_requests_facts b1 topics1 ⟨0⟩).1, (listen_requests_facts b1 topics1 ⟨0⟩).2.2.1⟩
  · intro b1 conn r hr
    exact (listen_requests_facts b1 [] conn).2.2.2 r hr
  · intro fuel dial setupBroker listenBroker res r hmain hr
    rcases main_amqp_events fuel dial setupBroker listenBroker res r hmain hr with ⟨c, h⟩ | h
    · exact (listen_requests_facts setupBroker [] c).2.2.2 r h
    · exact (listen_requests_facts listenBroker _ ⟨0⟩).2.2.1 r h

theorem listen_registers_one_consumer_witness :
    consumeRequests
        (Listen (brokerRefusingKey "log.DEBUG" [⟨"not json"⟩])
          ["log.INFO", "log.WARNING", "log.ERROR"]).requests
      = [⟨"amq.gen-1", "", true, false, false, false, none⟩] ∧
    (Listen (brokerRefusingKey "log.DEBUG" [⟨"not json"⟩])
        ["log.INFO", "log.WARNING", "log.ERROR"]).outcome = .blocked ∧
    (Listen (brokerRefusingKey "log.DEBUG" [⟨"not json"⟩])
        ["log.INFO", "log.WARNING", "log.ERROR"]).started = [Payload.zero] :=
  have h := listen_registers_one_consumer (brokerRefusingKey "log.DEBUG" [⟨"not json"⟩])
    ["log.INFO", "log.WARNING", "log.ERROR"] rfl rfl
    (by
      intro j s hs
      have hmem : s ∈ ["log.INFO", "log.WARNING", "log.ERROR"] := by
        obtain ⟨hj, hget⟩ := List.getElem?_eq_some.mp hs
        exact hget ▸ List.getElem_mem _
      simp only [List.mem_cons, List.mem_singleton, List.not_mem_nil, or_false] at hmem
      rcases hmem with h | h | h <;> subst h <;>
        simp [brokerRefusingKey])
  ⟨h.1, (h.2.2.1 [⟨"not json"⟩] rfl).1, by
    rw [(h.2.2.1 [⟨"not json"⟩] rfl).2]
    decide⟩

/-! ## Theorems: `main` -/

/-- C15. If `connect` returns an error, `main` logs that error and exits with status 1:
the run consists of the events of `connect` and the one log line, with no AMQP request
(no consumer created, no topology declared, no listening) and no handler started. -/
theorem main_connect_error_exits (fuel : Nat) (dial : Nat → Except GoError Connection)
    (setupBroker listenBroker : Broker) (r : ConnectResult) (e : GoError)
    (hr : connect fuel dial = some r) (he : r.err = some e) :
    main fuel dial setupBroker listenBroker
      = some ⟨.exit 1, r.trace.map MainEvent.connect ++ [.logPrintln e.msg], []⟩ ∧
    exitStatus (.exit 1) = some 1 ∧
    (∀ q, MainEvent.amqp q ∉ r.trace.map MainEvent.connect ++ [.logPrintln e.msg]) ∧
    MainEvent.connectionClose ∉ r.trace.map MainEvent.connect ++ [.logPrintln e.msg] := by
  refine ⟨?_, rfl, ?_, ?_⟩
  · simp [main, hr, he]
  · intro q
    simp
  · simp

theorem main_connect_error_exits_witness :
    main 6 (dialReadyAfter 7) (brokerRefusingKey "" []) (brokerRefusingKey "" [])
      = some ⟨.exit 1,
          (failTrace 5 ++ [ConnectEvent.dial 5]).map MainEvent.connect
            ++ [.logPrintln "connection refused"], []⟩ :=
  (main_connect_error_exits 6 (dialReadyAfter 7) (brokerRefusingKey "" [])
    (brokerRefusingKey "" [])
    ⟨none, some ⟨"connection refused"⟩, failTrace 5 ++ [ConnectEvent.dial 5]⟩
    ⟨"connection refused"⟩ (by decide) rfl).1

/-- C16 (refuted as stated). With a broker that refuses the bind of `log.WARNING`, `Listen`
returns the bind error, `main` logs it and returns: the process ends with exit status 0,
not by a panic and not with a non-zero status. -/
theorem main_bind_failure_exits_zero :
    ∃ res, main 6 (dialReadyAfter 0) (brokerRefusingKey "" [])
        (brokerRefusingKey "log.WARNING" []) = some res ∧
      res.ending = .returned ∧ exitStatus res.ending = some 0 ∧
      MainEvent.logPrintln "bind refused" ∈ res.events := by
  refine ⟨_, rfl, ?_, ?_, ?_⟩ <;> decide

/-- C16 (amended). After a successful `connect`, every setup error ends the run without a
handler being started: when `NewConsumer` fails (channel open or exchange declaration)
the process panics with that error; when `Listen` returns an error (channel open, queue
declaration, a bind or the consume registration) `main` logs it and returns, so the
process ends with exit status 0. -/
theorem main_setup_error_ends_run (fuel : Nat) (dial : Nat → Except GoError Connection)
    (setupBroker listenBroker : Broker) (r : ConnectResult) (c : Connection)
    (hr : connect fuel dial = some r) (herr : r.err = none) (hconn : r.connection = some c) :
    (∀ e, (NewConsumer setupBroker c).err = some e →
      ∃ res, main fuel dial setupBroker listenBroker = some res ∧
        res.ending = .panicked e ∧ exitStatus res.ending = some 2 ∧ res.started = [] ∧
        ∀ q, q ∈ (Listen listenBroker ["log.INFO", "log.WARNING", "log.ERROR"]).requests →
          q ∉ (NewConsumer setupBroker c).requests → MainEvent.amqp q ∉ res.events) ∧
    (∀ e, (NewConsumer setupBroker c).err = none →
      (Listen listenBroker ["log.INFO", "log.WARNING", "log.ERROR"]).outcome
        = .returned (some e) →
      ∃ res, main fuel dial setupBroker listenBroker = some res ∧
        res.ending = .returned ∧ exitStatus res.ending = some 0 ∧ res.started = [] ∧
        MainEvent.logPrintln e.msg ∈ res.events) := by
  constructor
  · intro e hnew
    have hmain : main fuel dial setupBroker listenBroker
        = some ⟨.panicked e,
            r.trace.map MainEvent.connect
              ++ [.logPrintln "Listening for and consuming RabbitMQ messages..."]
              ++ (NewConsumer setupBroker c).requests.map MainEvent.amqp
              ++ [.connectionClose], []⟩ := by
      simp only [main, hr, herr, hconn, hnew]
    refine ⟨_, hmain, rfl, rfl, rfl, ?_⟩
    intro q _ hq
    simp [hq]
  · intro e hnew hlisten
    have hmain : main fuel dial setupBroker listenBroker
        = some ⟨.returned,
            r.trace.map MainEvent.connect
              ++ [.logPrintln "Listening for and consuming RabbitMQ messages..."]
              ++ (NewConsumer setupBroker c).requests.map MainEvent.amqp
              ++ (Listen listenBroker ["log.INFO", "log.WARNING", "log.ERROR"]).requests.map
                  MainEvent.amqp
              ++ [.logPrintln e.msg, .connectionClose], []⟩ := by
      simp only [main, hr, herr, hconn, hnew, hlisten]
    refine ⟨_, hmain, rfl, rfl, rfl, ?_⟩
    simp

theorem main_setup_error_ends_run_witness :
    ∃ res, main 6 (dialReadyAfter 0) (brokerRefusingKey "" [])
        (brokerRefusingKey "log.ERROR" []) = some res ∧
      res.ending = .returned ∧ exitStatus res.ending = some 0 ∧ res.started = [] ∧
      MainEvent.logPrintln "bind refused" ∈ res.events :=
  (main_setup_error_ends_run 6 (dialReadyAfter 0) (brokerRefusingKey "" [])
    (brokerRefusingKey "log.ERROR" []) ⟨some ⟨0⟩, none, [ConnectEvent.dial 0]⟩ ⟨0⟩
    (by decide) rfl rfl).2 ⟨"bind refused"⟩ (by decide) (by decide)

/-! ## Theorems: the log service -/

theorem readJSON_examples :
    (readJSON "\x7b\"name\":\"a\",\"data\":\"b\"\x7d \n" Payload.zero) = (⟨"a", "b"⟩, none) ∧
    (readJSON "\x7b\"name\":\"a\"\x7d \x7b\x7d" Payload.zero).2
      = some (.other ⟨"body must have only a single JSON value"⟩) ∧
    (readJSON "\x7b\"name\":1\x7d" Payload.zero).2
      = some (.decode (.unmarshal (.typeMismatch "number"))) ∧
    (readJSON "" Payload.zero).2 = some (.decode .eof) ∧
    (readJSON "12 x" Payload.zero).2 = some (.decode (.unmarshal (.typeMismatch "number"))) := by
  decide

theorem maxBytesReader_eof (cs : List Char) :
    ∀ n : Nat, ((maxBytesReader n cs).2 = .eof ↔ byteLength cs ≤ n) ∧
      ((maxBytesReader n cs).2 = .eof → (maxBytesReader n cs).1 = cs) := by
  induction cs with
  | nil => intro n; simp [maxBytesReader, byteLength]
  | cons c cs ih =>
    intro n
    by_cases hc : c.utf8Size ≤ n
    · obtain ⟨h1, h2⟩ := ih (n - c.utf8Size)
      simp only [maxBytesReader, hc, if_true, byteLength]
      constructor
      · rw [h1]; omega
      · intro h; rw [h2 h]
    · simp only [maxBytesReader, hc, if_false, byteLength]
      constructor
      · constructor
        · intro h; cases h
        · intro h; omega
      · intro h; cases h

theorem decoderDecode_eof {α : Type} (store : JSON → α → α × Option UnmarshalError)
    (input : List Char) (ending : StreamEnd) (target : α) :
    (decoderDecode store input ending target).2.1 = some .eof ↔
      skipSpace input = [] ∧ ending = .eof := by
  unfold decoderDecode
  by_cases hs : skipSpace input = []
  · cases ending <;> simp [hs]
  · simp only [hs, if_false, false_and, iff_false]
    cases parseValue (2 * input.length + 2) 0 (skipSpace input) with
    | none => simp
    | some vr =>
      obtain ⟨v, rest⟩ := vr
      simp only []
      split
      · simp
      · cases (store v target).2 <;> simp

theorem decoderDecode_ok (input : List Char) (data : Payload) :
    (decoderDecode decodeValue input .eof data).2.1 = none ↔
      ∃ v rest, parseValue (2 * input.length + 2) 0 (skipSpace input) = some (v, rest) ∧
        (decodeValue v data).2 = none ∧
        decoderDecode decodeValue input .eof data = ((decodeValue v data).1, none, rest) := by
  unfold decoderDecode
  by_cases hs : skipSpace input = []
  · have hp : parseValue (2 * input.length + 2) 0 [] = none := by
      simp [parseValue]
    simp [hs, hp]
  · simp only [hs, if_false]
    cases parseValue (2 * input.length + 2) 0 (skipSpace input) with
    | none => simp
    | some vr =>
      obtain ⟨v, rest⟩ := vr
      have hne : ¬ (endsAtBracket v = false ∧ rest = [] ∧
          StreamEnd.eof = StreamEnd.tooLarge) := by
        rintro ⟨_, _, h⟩
        cases h
      simp only [hne, if_false]
      cases hd : (decodeValue v data).2 with
      | none =>
        constructor
        · intro _
          exact ⟨v, rest, rfl, hd, by simp⟩
        · intro _
          simp
      | some e => simp

theorem decoderDecode_of_parse (input : List Char) (data : Payload) (v : JSON)
    (rest : List Char)
    (hp : parseValue (2 * input.length + 2) 0 (skipSpace input) = some (v, rest)) :
    decoderDecode decodeValue input .eof data
      = ((decodeValue v data).1, (decodeValue v data).2.map .unmarshal, rest) := by
  have hne : skipSpace input ≠ [] := by
    intro h0
    rw [h0] at hp
    simp [parseValue] at hp
  have hno : ¬ (endsAtBracket v = false ∧ rest = [] ∧
      StreamEnd.eof = StreamEnd.tooLarge) := by
    rintro ⟨_, _, h⟩
    cases h
  unfold decoderDecode
  simp only [hne, if_false, hp, hno]

theorem parseJSON_eq (cs : List Char) :
    parseJSON cs =
      match parseValue (2 * cs.length + 2) 0 (skipSpace cs) with
      | none => none
      | some (v, rest) => if skipSpace rest = [] then some v else none := rfl

/-- The two calls of `Decode` in `readJSON`, spelled out. -/
theorem readJSON_eq (body : String) (data : Payload) :
    readJSON body data =
      match (decoderDecode decodeValue (maxBytesReader 1048576 body.data).1
          (maxBytesReader 1048576 body.data).2 data).2.1 with
      | some err =>
        ((decoderDecode decodeValue (maxBytesReader 1048576 body.data).1
          (maxBytesReader 1048576 body.data).2 data).1, some (.decode err))
      | none =>
        if (decoderDecode decodeEmptyStruct
            (decoderDecode decodeValue (maxBytesReader 1048576 body.data).1
              (maxBytesReader 1048576 body.data).2 data).2.2
            (maxBytesReader 1048576 body.data).2 ()).2.1 = some .eof then
          ((decoderDecode decodeValue (maxBytesReader 1048576 body.data).1
            (maxBytesReader 1048576 body.data).2 data).1, none)
        else
          ((decoderDecode decodeValue (maxBytesReader 1048576 body.data).1
            (maxBytesReader 1048576 body.data).2 data).1,
            some (.other ⟨"body must have only a single JSON value"⟩)) := by
  unfold readJSON
  simp only []
  generalize decoderDecode decodeValue (maxBytesReader 1048576 body.data).1
    (maxBytesReader 1048576 body.data).2 data = first
  obtain ⟨d, e, unread⟩ := first
  cases e with
  | some err => rfl
  | none =>
    simp only []
    generalize (decoderDecode decodeEmptyStruct unread
      (maxBytesReader 1048576 body.data).2 ()).2.1 = second
    cases second with
    | none => simp
    | some e2 => cases e2 <;> simp

/-- C19. `readJSON` returns nil exactly when the body has at most 1 MiB and is one JSON
value, with white space at most around it, that decodes into the target without error;
the target then holds what `json.Unmarshal` of the body gives. If the first `Decode`
fails, `readJSON` returns its error. If it succeeds and what follows the first value is
not white space up to the end of the body, `readJSON` returns the error
`body must have only a single JSON value`. -/
theorem readJSON_nil_iff_single_value (body : String) (data : Payload) :
    ((readJSON body data).2 = none ↔
      byteLength body.data ≤ 1048576 ∧
        ∃ v, parseJSON body.data = some v ∧ (decodeValue v data).2 = none) ∧
    ((readJSON body data).2 = none →
      (readJSON body data).1 = (jsonUnmarshal body data).1 ∧
      (jsonUnmarshal body data).2 = none) ∧
    (∀ e, (decoderDecode decodeValue (maxBytesReader 1048576 body.data).1
        (maxBytesReader 1048576 body.data).2 data).2.1 = some e →
      (readJSON body data).2 = some (.decode e)) ∧
    ((decoderDecode decodeValue (maxBytesReader 1048576 body.data).1
        (maxBytesReader 1048576 body.data).2 data).2.1 = none →
      ¬ (skipSpace (decoderDecode decodeValue (maxBytesReader 1048576 body.data).1
            (maxBytesReader 1048576 body.data).2 data).2.2 = [] ∧
          (maxBytesReader 1048576 body.data).2 = .eof) →
      (readJSON body data).2
        = some (.other ⟨"body must have only a single JSON value"⟩)) := by
  have hnil : (readJSON body data).2 = none →
      byteLength body.data ≤ 1048576 ∧
        ∃ v, parseJSON body.data = some v ∧ (decodeValue v data).2 = none ∧
          readJSON body data = ((decodeValue v data).1, none) := by
    intro h
    rw [readJSON_eq] at h
    cases hfirst : (decoderDecode decodeValue (maxBytesReader 1048576 body.data).1
        (maxBytesReader 1048576 body.data).2 data).2.1 with
    | some err => simp [hfirst] at h
    | none =>
      simp only [hfirst] at h
      split at h
      · rename_i hsecond
        obtain ⟨hrest, hend⟩ := (decoderDecode_eof _ _ _ _).mp hsecond
        obtain ⟨hsize, htext⟩ := maxBytesReader_eof body.data 1048576
        have htext := htext hend
        rw [hend, htext] at hfirst hrest
        obtain ⟨v, rest, hp, hd, hres⟩ := (decoderDecode_ok body.data data).mp hfirst
        rw [hres] at hrest
        simp only at hrest
        refine ⟨hsize.mp hend, v, ?_, hd, ?_⟩
        · rw [parseJSON_eq, hp]
          simp only [hrest, if_true]
        · rw [readJSON_eq, hend, htext, hres]
          simp only []
          rw [if_pos]
          exact (decoderDecode_eof _ _ _ _).mpr ⟨hrest, rfl⟩
      · simp at h
  refine ⟨⟨fun h => ?_, ?_⟩, ?_, ?_, ?_⟩
  · obtain ⟨hsize, v, hp, hd, _⟩ := hnil h
    exact ⟨hsize, v, hp, hd⟩
  · rintro ⟨hsize, v, hp, hd⟩
    obtain ⟨hs1, hs2⟩ := maxBytesReader_eof body.data 1048576
    have hend := hs1.mpr hsize
    have htext := hs2 hend
    rw [parseJSON_eq] at hp
    cases hpv : parseValue (2 * body.data.length + 2) 0 (skipSpace body.data) with
    | none =>
      rw [hpv] at hp
      cases hp
    | some vr =>
      obtain ⟨v', rest⟩ := vr
      rw [hpv] at hp
      simp only at hp
      split at hp
      · rename_i hrest
        cases hp
        have hres : decoderDecode decodeValue body.data .eof data
            = ((decodeValue v data).1, none, rest) := by
          rw [decoderDecode_of_parse body.data data v rest hpv, hd]
          rfl
        rw [readJSON_eq, hend, htext, hres]
        simp only []
        rw [if_pos]
        exact (decoderDecode_eof _ _ _ _).mpr ⟨hrest, rfl⟩
      · cases hp
  · intro h
    obtain ⟨_, v, hp, hd, hres⟩ := hnil h
    rw [hres]
    unfold jsonUnmarshal
    rw [hp]
    exact ⟨rfl, hd⟩
  · intro e he
    rw [readJSON_eq, he]
  · intro hfirst hnot
    rw [readJSON_eq, hfirst]
    simp only []
    rw [if_neg]
    intro hsecond
    exact hnot ((decoderDecode_eof _ _ _ _).mp hsecond)

/-- C20. `WriteLog` inserts the entry made of the `Name` and `Data` that `readJSON` left
in the request payload (its error is dropped) and then writes one response, chosen by the
answer of the insert alone: status 202 with body `{"error":false,"message":"logged"}`
when the insert succeeds, status 400 with `error` true and the message of the insert
error when it fails. Each response is one `Content-Type` header, one status line and one
body. -/
theorem writeLog_response (store : LogStore) (body : String) :
    ∃ entry : LogEntry,
      entry = ⟨(readJSON body Payload.zero).1.Name, (readJSON body Payload.zero).1.Data⟩ ∧
      (store.insert entry = none →
        WriteLog store body =
          [.insert entry,
            .response (.headerSet "Content-Type" "application/json"),
            .response (.writeHeader 202),
            .response (.write "\x7b\"error\":false,\"message\":\"logged\"\x7d")]) ∧
      (∀ e, store.insert entry = some e →
        WriteLog store body =
          [.insert entry,
            .response (.headerSet "Content-Type" "application/json"),
            .response (.writeHeader 400),
            .response (.write (jsonMarshalResponse ⟨true, e.msg, none⟩))] ∧
        (jsonMarshalResponse ⟨true, e.msg, none⟩).data
          = "\x7b\"error\":true,\"message\":".data ++ appendString e.msg.data ++ ['}'] ∧
        unquote ((appendString e.msg.data).tail ++ ['}']) = some (e.msg.data, ['}'])) ∧
      (∀ other : String,
        store.insert ⟨(readJSON other Payload.zero).1.Name, (readJSON other Payload.zero).1.Data⟩
            = store.insert entry →
        (WriteLog store other).tail = (WriteLog store body).tail) := by
  refine ⟨_, rfl, ?_, ?_, ?_⟩
  · intro hins
    have hbody : jsonMarshalResponse ⟨false, "logged", none⟩
        = "\x7b\"error\":false,\"message\":\"logged\"\x7d" := by decide
    simp only [WriteLog, hins, writeJSON, hbody, StatusAccepted]
    cases store.write _ <;> rfl
  · intro e hins
    refine ⟨?_, ?_, ?_⟩
    · simp only [WriteLog, hins, errorJSON, writeJSON, StatusBadRequest]
      cases store.write _ <;> rfl
    · simp [jsonMarshalResponse]
    · have h := unquote_appendString e.msg.data ['}']
      simpa [appendString] using h
  · intro other hsame
    simp only [WriteLog, hsame]
    cases store.insert
        ⟨(readJSON body Payload.zero).1.Name, (readJSON body Payload.zero).1.Data⟩ <;>
      rfl

theorem writeLog_response_examples :
    WriteLog (storeRefusing "auth") "\x7b\"name\":\"auth\",\"data\":\"x\"\x7d" =
      [.insert ⟨"auth", "x"⟩,
        .response (.headerSet "Content-Type" "application/json"),
        .response (.writeHeader 400),
        .response (.write "\x7b\"error\":true,\"message\":\"insert failed\"\x7d")] ∧
    WriteLog (storeRefusing "auth") "not json" =
      [.insert ⟨"", ""⟩,
        .response (.headerSet "Content-Type" "application/json"),
        .response (.writeHeader 202),
        .response (.write "\x7b\"error\":false,\"message\":\"logged\"\x7d")] := by
  decide

/-! ## Theorems: topic matching -/

theorem topicMatches_examples :
    topicMatches "log.INFO" "log.INFO" = true ∧ topicMatches "log.INFO" "log.DEBUG" = false ∧
    topicMatches "log.*" "log.DEBUG" = true ∧ topicMatches "log.*" "log.a.b" = false ∧
    topicMatches "log.#" "log" = true ∧ topicMatches "log.#" "log.a.b" = true ∧
    topicMatches "#.ERROR" "log.a.ERROR" = true ∧ topicMatches "log.*" "log" = false ∧
    hasWildcard "log.*" = true ∧ hasWildcard "log.INFO" = false := by
  decide

/-! ## Theorems: `getEncryption` -/

/-- C21. `getEncryption` is defined on every string and compares with letter case: the
result is no encryption exactly for `"none"` and the empty string, SSL/TLS exactly for
`"ssl"`, and STARTTLS for `"tls"` and every other string, so for `"SSL"`, `"None"` and
unknown values too. -/
theorem getEncryption_cases (s : String) :
    (getEncryption s = .EncryptionNone ↔ s = "none" ∨ s = "") ∧
    (getEncryption s = .EncryptionSSLTLS ↔ s = "ssl") ∧
    (getEncryption s = .EncryptionSTARTTLS ↔ s ≠ "none" ∧ s ≠ "" ∧ s ≠ "ssl") ∧
    getEncryption "tls" = .EncryptionSTARTTLS ∧
    getEncryption "SSL" = .EncryptionSTARTTLS ∧
    getEncryption "None" = .EncryptionSTARTTLS ∧
    getEncryption "starttls" = .EncryptionSTARTTLS := by
  refine ⟨?_, ?_, ?_, by decide, by decide, by decide, by decide⟩
  · unfold getEncryption
    by_cases h1 : s = "tls"
    · subst h1; decide
    by_cases h2 : s = "ssl"
    · subst h2; decide
    by_cases h3 : s = "none" ∨ s = ""
    · simp [h1, h2, h3]
    · simp [h1, h2, h3]
  · unfold getEncryption
    by_cases h1 : s = "tls"
    · subst h1; decide
    by_cases h2 : s = "ssl"
    · subst h2; decide
    by_cases h3 : s = "none" ∨ s = ""
    · simp [h1, h2, h3]
    · simp [h1, h2, h3]
  · unfold getEncryption
    by_cases h1 : s = "tls"
    · subst h1; decide
    by_cases h2 : s = "ssl"
    · subst h2; decide
    by_cases h3 : s = "none" ∨ s = ""
    · rcases h3 with h | h <;> subst h <;> decide
    · have h4 : s ≠ "none" := fun h => h3 (Or.inl h)
      have h5 : s ≠ "" := fun h => h3 (Or.inr h)
      simp [h1, h2, h3, h4, h5]

/-! ## Theorems: errors of `logEvent` and `handlePayload` -/

/-- C23. When the round trip succeeds, `logEvent` returns the nil error whatever the status
of the response, so for every status other than 202 too; its result is non-nil exactly
when `http.NewRequest` fails or the round trip fails, and then it is that error. -/
theorem logEvent_error_iff_transport (w : HttpWorld) (entry : Payload) :
    (∀ request response,
      httpNewRequest w "POST" "http://logger-service/log" (jsonMarshalIndent entry "" "\t")
        = .ok request →
      w.roundTrip (headerSet request "Content-Type" "application/json") = .ok response →
      (logEvent w entry).1 = none) ∧
    (∀ e, (logEvent w entry).1 = some e ↔
      (httpNewRequest w "POST" "http://logger-service/log" (jsonMarshalIndent entry "" "\t")
          = .error e ∨
        ∃ request,
          httpNewRequest w "POST" "http://logger-service/log" (jsonMarshalIndent entry "" "\t")
            = .ok request ∧
          w.roundTrip (headerSet request "Content-Type" "application/json") = .error e)) := by
  unfold logEvent
  simp only []
  cases hnew : httpNewRequest w "POST" "http://logger-service/log"
      (jsonMarshalIndent entry "" "\t") with
  | error e0 => simp
  | ok request =>
    simp only []
    cases hdo : w.roundTrip (headerSet request "Content-Type" "application/json") with
    | error e1 =>
      constructor
      · intro request' response' hreq hok
        cases hreq
        rw [hdo] at hok
        cases hok
      · intro e
        constructor
        · intro h
          cases h
          exact Or.inr ⟨request, rfl, hdo⟩
        · rintro (h | ⟨request', hreq, hfail⟩)
          · cases h
          · cases hreq
            rw [hdo] at hfail
            cases hfail
            rfl
    | ok response =>
      simp only []
      constructor
      · intro request' response' hreq _
        split <;> rfl
      · intro e
        constructor
        · intro h
          split at h <;> cases h
        · rintro (h | ⟨request', hreq, hfail⟩)
          · cases h
          · cases hreq
            rw [hdo] at hfail
            cases hfail

theorem logLines_logEvent (w : HttpWorld) (entry : Payload) :
    logLines (logEvent w entry).2 = [] := by
  unfold logEvent
  simp only []
  cases httpNewRequest w "POST" "http://logger-service/log" (jsonMarshalIndent entry "" "\t") with
  | error e => rfl
  | ok request =>
    simp only []
    cases w.roundTrip (headerSet request "Content-Type" "application/json") with
    | error e => rfl
    | ok response =>
      simp only []
      split <;> rfl

theorem logLines_append (xs ys : List HandlerEvent) :
    logLines (xs ++ ys) = logLines xs ++ logLines ys := by
  induction xs with
  | nil => rfl
  | cons x xs ih => cases x <;> simp [logLines, ih]

theorem logLines_forwardAndReport (w : HttpWorld) (payload : Payload) :
    logLines (forwardAndReport w payload)
      = match (logEvent w payload).1 with
        | some e => [e]
        | none => [] := by
  unfold forwardAndReport
  have h := logLines_logEvent w payload
  cases hl : logEvent w payload with
  | mk err events =>
    rw [hl] at h
    simp only at h
    cases err with
    | none => simp [logLines, h]
    | some e =>
      simp only [logLines]
      have h2 := logLines_append events [.println e]
      simp only [List.append_eq] at *
      rw [h2, h]
      rfl

/-- C24. `handlePayload` has no result and is defined on every payload; the errors it
writes to the log are exactly: the error of its forwarding call when that call returned a
non-nil error (one line), and nothing when the call returned nil or no call was made, as
for `"auth"`. -/
theorem handlePayload_logs_once_on_error (w : HttpWorld) (p : Payload) :
    logLines (handlePayload w p) =
      (if p.Name = "auth" then []
       else
         match (logEvent w p).1 with
         | some e => [e]
         | none => []) ∧
    (logLines (handlePayload w p)).length ≤ 1 ∧
    (forwardingCalls (handlePayload w p) = [] → logLines (handlePayload w p) = []) := by
  have hlog : logLines (handlePayload w p) =
      (if p.Name = "auth" then []
       else
         match (logEvent w p).1 with
         | some e => [e]
         | none => []) := by
    unfold handlePayload
    by_cases h1 : p.Name = "log" ∨ p.Name = "event"
    · have h2 : p.Name ≠ "auth" := by
        rcases h1 with h | h <;> rw [h] <;> decide
      simp only [h1, h2, if_true, if_false, logLines_forwardAndReport]
    · by_cases h2 : p.Name = "auth"
      · simp [h1, h2, logLines]
      · simp only [h1, h2, if_false, logLines_forwardAndReport]
  refine ⟨hlog, ?_, ?_⟩
  · rw [hlog]
    split
    · simp
    · cases (logEvent w p).1 <;> simp
  · intro hcalls
    rw [forwardingCalls_handlePayload] at hcalls
    rw [hlog]
    split
    · rfl
    · rename_i hne
      simp [hne] at hcalls

/-! ## Theorems: how `Listen` ends -/

theorem bindTopics_error_none_iff (b : Broker) (queue : String) (topics : List String)
    (requests : List AmqpRequest) :
    (bindTopics b queue topics 0 requests).1 = none ↔
      ∀ j s, topics[j]? = some s → b.queueBind j (bindArgs queue s) = none := by
  constructor
  · intro hnone
    by_contra hcon
    have hex : ∃ j, ∃ s, topics[j]? = some s ∧ b.queueBind j (bindArgs queue s) ≠ none := by
      by_contra hno
      apply hcon
      intro j s hs
      by_contra hne
      exact hno ⟨j, s, hs, hne⟩
    classical
    obtain ⟨t, ht, hfail⟩ := Nat.find_spec hex
    have hmin : ∀ j s, j < Nat.find hex → topics[j]? = some s →
        b.queueBind j (bindArgs queue s) = none := by
      intro j s hj hs
      by_contra hne
      exact Nat.find_min hex hj ⟨s, hs, hne⟩
    obtain ⟨err, herr⟩ := Option.ne_none_iff_exists'.mp hfail
    have hres := bindTopics_first_failure b queue err topics (Nat.find hex) 0 requests t
      (by simpa using hmin) ht (by simpa using herr)
    rw [hres] at hnone
    cases hnone
  · intro hall
    rw [bindTopics_all_succeed b queue topics 0 requests (by simpa using hall)]

theorem bindTopics_error_some_iff (b : Broker) (queue : String) (topics : List String)
    (requests : List AmqpRequest) (e : GoError) :
    (bindTopics b queue topics 0 requests).1 = some e ↔
      ∃ i t, (∀ j s, j < i → topics[j]? = some s → b.queueBind j (bindArgs queue s) = none) ∧
        topics[i]? = some t ∧ b.queueBind i (bindArgs queue t) = some e := by
  constructor
  · intro hsome
    have hnot : ¬ ∀ j s, topics[j]? = some s → b.queueBind j (bindArgs queue s) = none := by
      intro hall
      rw [(bindTopics_error_none_iff b queue topics requests).mpr hall] at hsome
      cases hsome
    have hex : ∃ j, ∃ s, topics[j]? = some s ∧ b.queueBind j (bindArgs queue s) ≠ none := by
      by_contra hno
      apply hnot
      intro j s hs
      by_contra hne
      exact hno ⟨j, s, hs, hne⟩
    classical
    obtain ⟨t, ht, hfail⟩ := Nat.find_spec hex
    have hmin : ∀ j s, j < Nat.find hex → topics[j]? = some s →
        b.queueBind j (bindArgs queue s) = none := by
      intro j s hj hs
      by_contra hne
      exact Nat.find_min hex hj ⟨s, hs, hne⟩
    obtain ⟨err, herr⟩ := Option.ne_none_iff_exists'.mp hfail
    have hres := bindTopics_first_failure b queue err topics (Nat.find hex) 0 requests t
      (by simpa using hmin) ht (by simpa using herr)
    rw [hres] at hsome
    cases hsome
    exact ⟨Nat.find hex, t, hmin, ht, herr⟩
  · rintro ⟨i, t, hok, hi, hfail⟩
    rw [bindTopics_first_failure b queue e topics i 0 requests t (by simpa using hok) hi
      (by simpa using hfail)]

/-- The outcome of `Listen` as a function of the answers of the broker. -/
theorem listen_outcome_eq (b : Broker) (topics : List String) :
    (Listen b topics).outcome =
      match b.channel with
      | some e => .returned (some e)
      | none =>
        match (declareRandomQueue b).2.2 with
        | some e => .returned (some e)
        | none =>
          match (bindTopics b (declareRandomQueue b).2.1.Name topics 0
              [.channelOpen, (declareRandomQueue b).1]).1 with
          | some e => .returned (some e)
          | none =>
            match b.consume (consumeArgs (declareRandomQueue b).2.1.Name) with
            | .error e => .returned (some e)
            | .ok _ => .blocked := by
  unfold Listen
  cases b.channel with
  | some e => rfl
  | none =>
    simp only []
    rw [show declareRandomQueue b
      = ((declareRandomQueue b).1, (declareRandomQueue b).2.1, (declareRandomQueue b).2.2)
      from rfl]
    simp only []
    cases (declareRandomQueue b).2.2 with
    | some e => rfl
    | none =>
      simp only []
      cases bindTopics b (declareRandomQueue b).2.1.Name topics 0
          [.channelOpen, (declareRandomQueue b).1] with
      | mk e requests =>
        cases e with
        | some e => rfl
        | none =>
          simp only []
          cases b.consume (consumeArgs (declareRandomQueue b).2.1.Name) <;> rfl

/-- C25. `Listen` never returns the nil error. It blocks exactly when opening the channel,
declaring the queue, every bind and the consume registration all succeed; otherwise it
returns, and what it returns is the error of the first of these steps that fails. -/
theorem listen_never_returns_nil (b : Broker) (topics : List String) :
    (Listen b topics).outcome ≠ .returned none ∧
    ((Listen b topics).outcome = .blocked ↔
      b.channel = none ∧ (declareRandomQueue b).2.2 = none ∧
      (∀ j s, topics[j]? = some s →
        b.queueBind j ⟨(declareRandomQueue b).2.1.Name, s, "logs_topic", false, none⟩ = none) ∧
      ∃ messages,
        b.consume ⟨(declareRandomQueue b).2.1.Name, "", true, false, false, false, none⟩
          = .ok messages) ∧
    (∀ e, (Listen b topics).outcome = .returned (some e) ↔
      b.channel = some e ∨
      (b.channel = none ∧ (declareRandomQueue b).2.2 = some e) ∨
      (b.channel = none ∧ (declareRandomQueue b).2.2 = none ∧
        ∃ i t,
          (∀ j s, j < i → topics[j]? = some s →
            b.queueBind j ⟨(declareRandomQueue b).2.1.Name, s, "logs_topic", false, none⟩
              = none) ∧
          topics[i]? = some t ∧
          b.queueBind i ⟨(declareRandomQueue b).2.1.Name, t, "logs_topic", false, none⟩
            = some e) ∨
      (b.channel = none ∧ (declareRandomQueue b).2.2 = none ∧
        (∀ j s, topics[j]? = some s →
          b.queueBind j ⟨(declareRandomQueue b).2.1.Name, s, "logs_topic", false, none⟩
            = none) ∧
        b.consume ⟨(declareRandomQueue b).2.1.Name, "", true, false, false, false, none⟩
          = .error e)) := by
  have hnone := bindTopics_error_none_iff b (declareRandomQueue b).2.1.Name topics
    [.channelOpen, (declareRandomQueue b).1]
  have hsome := bindTopics_error_some_iff b (declareRandomQueue b).2.1.Name topics
    [.channelOpen, (declareRandomQueue b).1]
  simp only [bindArgs] at hnone hsome
  have hca : consumeArgs (declareRandomQueue b).2.1.Name
      = ⟨(declareRandomQueue b).2.1.Name, "", true, false, false, false, none⟩ := rfl
  rw [listen_outcome_eq, hca]
  cases hch : b.channel with
  | some e0 => simp
  | none =>
    cases hq : (declareRandomQueue b).2.2 with
    | some e1 => simp
    | none =>
      cases hb : (bindTopics b (declareRandomQueue b).2.1.Name topics 0
          [.channelOpen, (declareRandomQueue b).1]).1 with
      | some e2 =>
        have hnotall : ¬ ∀ j s, topics[j]? = some s →
            b.queueBind j ⟨(declareRandomQueue b).2.1.Name, s, "logs_topic", false, none⟩
              = none := by
          intro hall
          rw [hnone.mpr hall] at hb
          cases hb
        refine ⟨by simp, ?_, ?_⟩
        · simp [hnotall]
        · intro e
          simp only [ListenOutcome.returned.injEq, Option.some.injEq, true_and, hnotall,
            false_and, or_false, false_or, reduceCtorEq]
          rw [← hsome e, hb]
          simp
      | none =>
        have hall := hnone.mp hb
        have hnofail : ∀ e, ¬ ∃ i t,
            (∀ j s, j < i → topics[j]? = some s →
              b.queueBind j ⟨(declareRandomQueue b).2.1.Name, s, "logs_topic", false, none⟩
                = none) ∧
            topics[i]? = some t ∧
            b.queueBind i ⟨(declareRandomQueue b).2.1.Name, t, "logs_topic", false, none⟩
              = some e := by
          intro e hex
          rw [← hsome e, hb] at hex
          cases hex
        cases hc : b.consume
            ⟨(declareRandomQueue b).2.1.Name, "", true, false, false, false, none⟩ with
        | error e3 =>
          refine ⟨by simp, by simp, ?_⟩
          intro e
          simp only [ListenOutcome.returned.injEq, Option.some.injEq, true_and, hnofail e,
            false_or, reduceCtorEq, Except.error.injEq]
          constructor
          · intro h; exact ⟨hall, h⟩
          · intro h; exact h.2
        | ok messages =>
          refine ⟨by simp, ?_, ?_⟩
          · simp only [true_and, true_iff]
            exact ⟨hall, messages, rfl⟩
          · intro e
            simp only [reduceCtorEq, hnofail e, false_or, true_and, and_false]

/-! ## Theorems: the time `connect` sleeps -/

/-- The trace of `connect`: six failed dials, or the failures before the first success
followed by the successful dial. -/
theorem connect_trace (dial : Nat → Except GoError Connection) (fuel : Nat)
    (hfuel : 6 ≤ fuel) :
    ∃ r, connect fuel dial = some r ∧
      (((∀ i, i < 6 → dialFails (dial i)) ∧ r.trace = failTrace 5 ++ [.dial 5]) ∨
        ∃ k c, k < 6 ∧ (∀ i, i < k → dialFails (dial i)) ∧ dial k = .ok c ∧
          r.trace = failTrace k ++ [.dial k]) := by
  by_cases hall : ∀ i, i < 6 → dialFails (dial i)
  · obtain ⟨f, rfl⟩ : ∃ f, fuel = (f + 1) + 5 := ⟨fuel - 6, by omega⟩
    obtain ⟨e, he⟩ := hall 5 (by omega)
    refine ⟨⟨none, some e, failTrace 5 ++ [.dial 5]⟩, ?_, Or.inl ⟨hall, rfl⟩⟩
    rw [connect, connectLoop_failures dial 5 (f + 1) (by omega) (fun i hi => hall i (by omega))]
    unfold connectLoop
    simp [he]
  · have hex : ∃ k, k < 6 ∧ ¬ dialFails (dial k) := by
      by_contra hcon
      exact hall (fun i hi => by_contra (fun hni => hcon ⟨i, hi, hni⟩))
    classical
    have hk := Nat.find_spec hex
    have hmin : ∀ i, i < Nat.find hex → dialFails (dial i) := by
      intro i hi
      by_contra hni
      exact Nat.find_min hex hi ⟨by omega, hni⟩
    generalize Nat.find hex = k at hk hmin
    obtain ⟨hk6, hnf⟩ := hk
    obtain ⟨c, hc⟩ : ∃ c, dial k = .ok c := by
      cases hd : dial k with
      | ok c => exact ⟨c, rfl⟩
      | error e => exact absurd (hd ▸ dialFails_error e) hnf
    obtain ⟨f, rfl⟩ : ∃ f, fuel = (f + 1) + k := ⟨fuel - 1 - k, by omega⟩
    refine ⟨⟨some c, none, failTrace k ++ [.dial k]⟩, ?_, Or.inr ⟨k, c, hk6, hmin, hc, rfl⟩⟩
    rw [connect, connectLoop_failures dial k (f + 1) (by omega) hmin]
    unfold connectLoop
    simp [hc]

theorem failTrace_measures (k : Nat) (hk : k < 6) :
    dialCount (failTrace k ++ [.dial k]) = k + 1 ∧
    totalSleep (failTrace k ++ [.dial k]) = k * (k + 1) * (2 * k + 1) / 6 * second ∧
    totalSleep (failTrace k ++ [.dial k]) = ((List.range (k + 1)).map (fun i => i ^ 2)).sum * second ∧
    (failTrace k ++ [ConnectEvent.dial k]).getLast? = some (.dial k) := by
  interval_cases k <;> decide

/-- C26. With six loop iterations allowed `connect` returns after at most six dial
attempts. If the first success is at attempt `k` (`1 ≤ k ≤ 6`) it made `k` dials and slept
`1^2 + ... + (k-1)^2 = (k-1)k(2k-1)/6` seconds in all; if all six attempts fail it made six
dials and slept 55 seconds. In both cases the trace ends with a dial: no sleep follows the
last attempt. -/
theorem connect_total_sleep (dial : Nat → Except GoError Connection) (fuel : Nat)
    (hfuel : 6 ≤ fuel) :
    ∃ r, connect fuel dial = some r ∧ dialCount r.trace ≤ 6 ∧
      (∀ k c, 1 ≤ k → k ≤ 6 → (∀ i, i < k - 1 → dialFails (dial i)) → dial (k - 1) = .ok c →
        dialCount r.trace = k ∧
        totalSleep r.trace = (k - 1) * k * (2 * k - 1) / 6 * second ∧
        totalSleep r.trace = ((List.range k).map (fun i => i ^ 2)).sum * second ∧
        r.trace.getLast? = some (.dial (k - 1))) ∧
      ((∀ i, i < 6 → dialFails (dial i)) →
        dialCount r.trace = 6 ∧ totalSleep r.trace = 55 * second ∧
        r.trace.getLast? = some (.dial 5)) := by
  obtain ⟨r, hr, hcases⟩ := connect_trace dial fuel hfuel
  refine ⟨r, hr, ?_, ?_, ?_⟩
  · rcases hcases with ⟨_, ht⟩ | ⟨k, c, hk, _, _, ht⟩
    · rw [ht]; decide
    · rw [ht, (failTrace_measures k hk).1]; omega
  · intro k c hk1 hk6 hpre hok
    obtain ⟨j, rfl⟩ : ∃ j, k = j + 1 := ⟨k - 1, by omega⟩
    simp only [Nat.add_sub_cancel] at hpre hok ⊢
    rcases hcases with ⟨hall, _⟩ | ⟨k0, c0, hk0, hpre0, hok0, ht⟩
    · obtain ⟨e, he⟩ := hall j (by omega)
      rw [hok] at he
      cases he
    · have hkk : k0 = j := by
        rcases Nat.lt_trichotomy k0 j with h | h | h
        · obtain ⟨e, he⟩ := hpre k0 h
          rw [hok0] at he
          cases he
        · exact h
        · obtain ⟨e, he⟩ := hpre0 j h
          rw [hok] at he
          cases he
      subst hkk
      obtain ⟨h1, h2, h3, h4⟩ := failTrace_measures k0 hk0
      rw [ht]
      refine ⟨h1, ?_, h3, h4⟩
      have e1 : 2 * (k0 + 1) - 1 = 2 * k0 + 1 := by omega
      rw [h2, e1]
  · intro hall
    rcases hcases with ⟨_, ht⟩ | ⟨k, c, hk, _, hok, _⟩
    · rw [ht]; decide
    · obtain ⟨e, he⟩ := hall k hk
      rw [hok] at he
      cases he

theorem connect_total_sleep_witness :
    ∃ r, connect 6 (dialReadyAfter 3) = some r ∧ dialCount r.trace ≤ 6 ∧
      (∀ k c, 1 ≤ k → k ≤ 6 → (∀ i, i < k - 1 → dialFails (dialReadyAfter 3 i)) →
        dialReadyAfter 3 (k - 1) = .ok c →
        dialCount r.trace = k ∧
        totalSleep r.trace = (k - 1) * k * (2 * k - 1) / 6 * second ∧
        totalSleep r.trace = ((List.range k).map (fun i => i ^ 2)).sum * second ∧
        r.trace.getLast? = some (.dial (k - 1))) ∧
      ((∀ i, i < 6 → dialFails (dialReadyAfter 3 i)) →
        dialCount r.trace = 6 ∧ totalSleep r.trace = 55 * second ∧
        r.trace.getLast? = some (.dial 5)) :=
  connect_total_sleep (dialReadyAfter 3) 6 (by decide)

/-! ## Theorems: the bindings of `main` -/

theorem splitDots_ne_nil (cs : List Char) : splitDots cs ≠ [] := by
  cases cs with
  | nil => simp [splitDots]
  | cons c cs =>
    simp only [splitDots]
    split
    · simp
    · split <;> simp

theorem joinDots_splitDots (cs : List Char) : joinDots (splitDots cs) = cs := by
  induction cs with
  | nil => rfl
  | cons c cs ih =>
    cases hs : splitDots cs with
    | nil => exact absurd hs (splitDots_ne_nil cs)
    | cons seg rest =>
      rw [hs] at ih
      by_cases hc : c = '.'
      · subst hc
        simp only [splitDots, hs, if_true, joinDots]
        rw [ih]
        rfl
      · simp only [splitDots, hs, hc, if_false]
        cases rest with
        | nil =>
          simp only [joinDots] at ih ⊢
          rw [ih]
        | cons next rest =>
          simp only [joinDots] at ih ⊢
          rw [← ih]
          rfl

theorem splitDots_injective (a b : List Char) (h : splitDots a = splitDots b) : a = b := by
  rw [← joinDots_splitDots a, h, joinDots_splitDots b]

theorem matchSegments_literal (ps : List (List Char)) :
    (∀ p, p ∈ ps → p ≠ ['#'] ∧ p ≠ ['*']) →
      ∀ ks, matchSegments ps ks = true ↔ ps = ks := by
  induction ps with
  | nil =>
    intro _ ks
    cases ks <;> simp [matchSegments]
  | cons p ps ih =>
    intro hlit ks
    obtain ⟨h1, h2⟩ := hlit p (List.mem_cons_self _ _)
    have ih' := ih (fun q hq => hlit q (List.mem_cons_of_mem _ hq))
    cases ks with
    | nil => simp [matchSegments, h1]
    | cons k ks => simp [matchSegments, h1, h2, ih' ks]

theorem topicMatches_literal (pattern key : String) (hw : hasWildcard pattern = false) :
    topicMatches pattern key = true ↔ key = pattern := by
  have hlit : ∀ p, p ∈ splitDots pattern.data → p ≠ ['#'] ∧ p ≠ ['*'] := by
    intro p hp
    have := hw
    simp only [hasWildcard, List.any_eq_false, Bool.or_eq_true, decide_eq_true_eq,
      not_or] at this
    exact ⟨(this p hp).2, (this p hp).1⟩
  unfold topicMatches
  rw [matchSegments_literal _ hlit]
  constructor
  · intro h
    have hd := splitDots_injective _ _ h
    cases pattern
    cases key
    simp only at hd
    rw [hd]
  · intro h
    rw [h]

theorem listen_blocked_requests (b : Broker) (topics : List String)
    (hblocked : (Listen b topics).outcome = .blocked) :
    (Listen b topics).requests =
      [.channelOpen, (declareRandomQueue b).1]
        ++ topics.map (fun s => .queueBind (bindArgs (declareRandomQueue b).2.1.Name s))
        ++ [.consume (consumeArgs (declareRandomQueue b).2.1.Name)] := by
  rw [listen_outcome_eq] at hblocked
  unfold Listen
  cases hch : b.channel with
  | some e => simp [hch] at hblocked
  | none =>
    simp only [hch] at hblocked ⊢
    rw [show declareRandomQueue b
      = ((declareRandomQueue b).1, (declareRandomQueue b).2.1, (declareRandomQueue b).2.2)
      from rfl]
    simp only []
    cases hq : (declareRandomQueue b).2.2 with
    | some e => simp [hq] at hblocked
    | none =>
      simp only [hq] at hblocked ⊢
      cases hb : (bindTopics b (declareRandomQueue b).2.1.Name topics 0
          [.channelOpen, (declareRandomQueue b).1]).1 with
      | some e => simp [hb] at hblocked
      | none =>
        simp only [hb] at hblocked
        have hall := (bindTopics_error_none_iff b (declareRandomQueue b).2.1.Name topics
          [.channelOpen, (declareRandomQueue b).1]).mp hb
        rw [bindTopics_all_succeed b (declareRandomQueue b).2.1.Name topics 0
          [.channelOpen, (declareRandomQueue b).1] (by simpa using hall)]
        simp only []
        cases hc : b.consume (consumeArgs (declareRandomQueue b).2.1.Name) with
        | error e => simp [hc] at hblocked
        | ok messages => rfl

theorem bindKeys_append (xs ys : List MainEvent) :
    bindKeys (xs ++ ys) = bindKeys xs ++ bindKeys ys := by
  induction xs with
  | nil => rfl
  | cons x xs ih =>
    cases x with
    | amqp r => cases r <;> simp [bindKeys, ih]
    | connect e => simp [bindKeys, ih]
    | logPrintln line => simp [bindKeys, ih]
    | connectionClose => simp [bindKeys, ih]

theorem bindKeys_connect (trace : List ConnectEvent) :
    bindKeys (trace.map MainEvent.connect) = [] := by
  induction trace with
  | nil => rfl
  | cons e rest ih => simp [bindKeys, ih]

theorem bindKeys_binds (queue : String) (topics : List String) :
    bindKeys ((topics.map (fun s => AmqpRequest.queueBind (bindArgs queue s))).map
      MainEvent.amqp) = topics := by
  induction topics with
  | nil => rfl
  | cons t rest ih =>
    simp only [List.map_cons, bindKeys, ih]
    rfl

theorem bindKeys_newConsumer (b : Broker) (conn : Connection) :
    bindKeys ((NewConsumer b conn).requests.map MainEvent.amqp) = [] := by
  unfold NewConsumer Consumer.setup declareExchange
  cases b.channel with
  | some e => rfl
  | none =>
    simp only []
    cases b.exchangeDeclare ⟨"logs_topic", "topic", true, false, false, false, none⟩ <;> rfl

/-- The events of a run of `main` that reaches listening. -/
theorem main_blocked_events (fuel : Nat) (dial : Nat → Except GoError Connection)
    (setupBroker listenBroker : Broker) (res : MainResult)
    (hmain : main fuel dial setupBroker listenBroker = some res)
    (hblocked : res.ending = .blocked) :
    ∃ r c, connect fuel dial = some r ∧
      (Listen listenBroker ["log.INFO", "log.WARNING", "log.ERROR"]).outcome = .blocked ∧
      res.events = r.trace.map MainEvent.connect
        ++ [.logPrintln "Listening for and consuming RabbitMQ messages..."]
        ++ (NewConsumer setupBroker c).requests.map MainEvent.amqp
        ++ (Listen listenBroker ["log.INFO", "log.WARNING", "log.ERROR"]).requests.map
            MainEvent.amqp := by
  unfold main at hmain
  cases hr : connect fuel dial with
  | none => simp [hr] at hmain
  | some r =>
    simp only [hr] at hmain
    cases herr : r.err with
    | some e =>
      simp only [herr] at hmain
      cases hmain
      cases hblocked
    | none =>
      simp only [herr] at hmain
      cases hconn : r.connection with
      | none =>
        simp only [hconn] at hmain
        cases hmain
        cases hblocked
      | some c =>
        simp only [hconn] at hmain
        cases hnew : (NewConsumer setupBroker c).err with
        | some e =>
          simp only [hnew] at hmain
          cases hmain
          cases hblocked
        | none =>
          simp only [hnew] at hmain
          cases hl : (Listen listenBroker ["log.INFO", "log.WARNING", "log.ERROR"]).outcome with
          | blocked =>
            simp only [hl] at hmain
            cases hmain
            exact ⟨r, c, rfl, rfl, rfl⟩
          | returned err =>
            simp only [hl] at hmain
            cases err with
            | some e =>
              simp only at hmain
              cases hmain
              cases hblocked
            | none =>
              simp only at hmain
              cases hmain
              cases hblocked

/-- C27. In a run of `main` that reaches listening, the bind requests carry exactly the
patterns `log.INFO`, `log.WARNING`, `log.ERROR`, in that order. None of them has a wildcard
segment, so under topic-exchange matching a routing key is delivered to the queue exactly
when it is one of those three strings: `log.INFO` is delivered and `log.DEBUG` is not. -/
theorem main_bindings_deliver_exact_keys (fuel : Nat)
    (dial : Nat → Except GoError Connection) (setupBroker listenBroker : Broker)
    (res : MainResult)
    (hmain : main fuel dial setupBroker listenBroker = some res)
    (hblocked : res.ending = .blocked) :
    bindKeys res.events = ["log.INFO", "log.WARNING", "log.ERROR"] ∧
    (∀ pattern, pattern ∈ bindKeys res.events → hasWildcard pattern = false) ∧
    (∀ key, delivered (bindKeys res.events) key = true ↔
      key = "log.INFO" ∨ key = "log.WARNING" ∨ key = "log.ERROR") ∧
    delivered (bindKeys res.events) "log.INFO" = true ∧
    delivered (bindKeys res.events) "log.DEBUG" = false := by
  obtain ⟨r, c, _, hl, hev⟩ := main_blocked_events fuel dial setupBroker listenBroker res
    hmain hblocked
  have hkeys : bindKeys res.events = ["log.INFO", "log.WARNING", "log.ERROR"] := by
    rw [hev, listen_blocked_requests listenBroker _ hl]
    simp only [bindKeys_append, List.map_append, bindKeys_connect, bindKeys_newConsumer,
      bindKeys_binds]
    rfl
  rw [hkeys]
  refine ⟨rfl, ?_, ?_, by decide, by decide⟩
  · intro pattern hp
    simp only [List.mem_cons, List.mem_singleton, List.not_mem_nil, or_false] at hp
    rcases hp with h | h | h <;> subst h <;> decide
  · intro key
    simp only [delivered, List.any_cons, List.any_nil, Bool.or_false, Bool.or_eq_true]
    rw [topicMatches_literal "log.INFO" key (by decide),
      topicMatches_literal "log.WARNING" key (by decide),
      topicMatches_literal "log.ERROR" key (by decide)]

theorem main_bindings_deliver_exact_keys_witness :
    ∃ res, main 6 (dialReadyAfter 0) (brokerRefusingKey "" []) (brokerRefusingKey "" [])
        = some res ∧
      bindKeys res.events = ["log.INFO", "log.WARNING", "log.ERROR"] ∧
      delivered (bindKeys res.events) "log.INFO" = true ∧
      delivered (bindKeys res.events) "log.DEBUG" = false :=
  ⟨_, rfl,
    (main_bindings_deliver_exact_keys 6 (dialReadyAfter 0) (brokerRefusingKey "" [])
      (brokerRefusingKey "" []) _ rfl (by decide)).1,
    (main_bindings_deliver_exact_keys 6 (dialReadyAfter 0) (brokerRefusingKey "" [])
      (brokerRefusingKey "" []) _ rfl (by decide)).2.2.2⟩

end Listener
